import Mathlib

/-! # Verification of the chainHead pinned-block subscription manager

A shallow embedding of `substrate/client/rpc-spec-v2/src/chain_head/subscription/inner.rs`.

Modelling conventions, stated once:
* Block hashes are `Nat`, subscription ids are `String`, `std::time::Instant`
  and `Duration` are `Nat`; the current instant is passed explicitly to the
  operations that call `Instant::now()` in the source.
* `HashMap` is modelled by an association list with the usual first-match
  lookup; well-formed states have no duplicate keys (`WF`), which a real
  `HashMap` guarantees.  Iteration order of a `HashMap` is unspecified in
  Rust, so the list order is one admissible order.
* The backend is a collaborator: its `pin_block` outcome is a parameter
  `backendPin : Hash → Except String Unit` of the calls that may invoke it,
  and every backend call made is appended to an event `log` in the state so
  that "the backend saw exactly these pins/unpins" is observable.
* Channels (the one-shot stop channel, the per-subscription event channel and
  the per-operation close channel) carry no data relevant to the claims; the
  stop sender is a `Bool` (still present or consumed) and the shared
  operations map keeps only its keys (the minted operation ids).
* The tokio semaphore of the operation limiter is its number of available
  permits; `try_acquire_many_owned` takes a `u32`, hence the explicit
  conversion bound in `reserve_at_most`.  Dropping a permit returns its
  permits, modelled by `drop_registered_operation` / `drop_block_guard`,
  which chain the `Drop` impls exactly as Rust runs them (the explicit
  `Drop::drop`, then the fields in declaration order).
-/

namespace ChainHead

abbrev Hash := Nat

abbrev SubId := String

abbrev Instant := Nat

/-! ## Association-list model of HashMap -/

section AssocMap

variable {K : Type} {V : Type} [DecidableEq K]

def lookupA : List (K × V) → K → Option V
  | [], _ => none
  | p :: rest, k => if p.1 = k then some p.2 else lookupA rest k

def insertA : List (K × V) → K → V → List (K × V)
  | [], k, v => [(k, v)]
  | p :: rest, k, v => if p.1 = k then (k, v) :: rest else p :: insertA rest k v

def eraseA (l : List (K × V)) (k : K) : List (K × V) :=
  l.filter (fun p => p.1 ≠ k)

def keysA (l : List (K × V)) : List K :=
  l.map Prod.fst

end AssocMap

/-! ## Block state machine (`BlockStateMachine`) -/

inductive BlockStateMachine
  | Registered
  | FullyRegistered
  | Unpinned
  | FullyUnpinned
deriving DecidableEq, Repr, Fintype

namespace BlockStateMachine

/-- `BlockStateMachine::new` starts at `Registered`. -/
def new : BlockStateMachine := .Registered

def advance_register : BlockStateMachine → BlockStateMachine
  | .Registered => .FullyRegistered
  | .Unpinned => .FullyUnpinned
  | s => s

def advance_unpin : BlockStateMachine → BlockStateMachine
  | .Registered => .Unpinned
  | .FullyRegistered => .FullyUnpinned
  | s => s

def was_unpinned : BlockStateMachine → Bool
  | .Unpinned => true
  | .FullyUnpinned => true
  | _ => false

end BlockStateMachine

/-! ## Operation limiter (`LimitOperations`) -/

/-- `LimitOperations::reserve_at_most` over a semaphore with `available`
permits: compute `num_ops = min available to_reserve`; if zero, none;
otherwise convert `num_ops` to `u32` (`try_into().ok()?`, failing when it
exceeds `u32::MAX = 2^32 - 1`) and acquire that many permits.  Returns the
permit size and the remaining available permits. -/
def reserve_at_most (available to_reserve : Nat) : Option (Nat × Nat) :=
  let num_ops := min available to_reserve
  if num_ops = 0 then none
  else if num_ops < 4294967296 then some (num_ops, available - num_ops)
  else none

/-! ## Operations ledger (`Operations`, `RegisteredOperation`) -/

/-- The per-subscription operations ledger: the id counter, the semaphore's
available permits (`limits`), and the keys of the shared
`operation_id -> (close-receiver, stop-handle)` map. -/
structure Operations where
  next_operation_id : Nat
  limits : Nat
  operations : List String
deriving DecidableEq, Repr

def Operations.new (max_operations : Nat) : Operations :=
  { next_operation_id := 0, limits := max_operations, operations := [] }

/-- A registered operation: its decimal-string id and the permits its
`PermitOperations` holds. -/
structure RegisteredOperation where
  operation_id : String
  num_permits : Nat
deriving DecidableEq, Repr

/-- `Operations::register_operation`: reserve capacity, mint the next decimal
operation id, insert it into the shared map. -/
def Operations.register_operation (ops : Operations) (to_reserve : Nat) :
    Option (RegisteredOperation × Operations) :=
  match reserve_at_most ops.limits to_reserve with
  | none => none
  | some (permit, remaining) =>
      let operation_id := Nat.repr ops.next_operation_id
      some ({ operation_id := operation_id, num_permits := permit },
        { next_operation_id := ops.next_operation_id + 1,
          limits := remaining,
          operations := ops.operations.insert operation_id })

/-- The frontend handle returned by `get_operation`; the stop handle itself
is a channel and is not modelled beyond the ledger membership. -/
structure OperationState where
  operation_id : String
deriving DecidableEq, Repr

/-- `Operations::get_operation`: clone the stop handle of the id, if present. -/
def Operations.get_operation (ops : Operations) (id : String) : Option OperationState :=
  if ops.operations.contains id then some { operation_id := id } else none

/-- `Drop for RegisteredOperation` removes the id from the shared map, and the
`_permit` field dropping right after returns its permits to the semaphore. -/
def drop_registered_operation (op : RegisteredOperation) (ops : Operations) : Operations :=
  { ops with operations := ops.operations.erase op.operation_id,
             limits := ops.limits + op.num_permits }

/-! ## Per-subscription state (`SubscriptionState`) -/

/-- The per-block record: its state machine and insertion timestamp. -/
structure BlockState where
  state_machine : BlockStateMachine
  timestamp : Instant
deriving DecidableEq, Repr

/-- `SubscriptionState`.  `tx_stop = true` models `Some(sender)`; the event
`response_sender` channel is not modelled. -/
structure SubscriptionState where
  with_runtime : Bool
  tx_stop : Bool
  operations : Operations
  blocks : List (Hash × BlockState)
deriving DecidableEq, Repr

namespace SubscriptionState

/-- `SubscriptionState::stop`: consume the stop sender if still present (the
send itself is a channel effect outside the model). -/
def stop (s : SubscriptionState) : SubscriptionState :=
  { s with tx_stop := false }

/-- `SubscriptionState::register_block`: first registration inserts a fresh
`Registered` entry stamped `now` and returns `true`; otherwise advance the
machine, remove the entry when it reaches `FullyUnpinned`, return `false`. -/
def register_block (s : SubscriptionState) (hash : Hash) (now : Instant) :
    Bool × SubscriptionState :=
  match lookupA s.blocks hash with
  | some bs =>
      let bs1 : BlockState := { bs with state_machine := bs.state_machine.advance_register }
      if bs1.state_machine = .FullyUnpinned then
        (false, { s with blocks := eraseA s.blocks hash })
      else
        (false, { s with blocks := insertA s.blocks hash bs1 })
  | none =>
      let fresh : BlockState := { state_machine := BlockStateMachine.new, timestamp := now }
      (true, { s with blocks := insertA s.blocks hash fresh })

/-- `SubscriptionState::unregister_block`: absent or already unpinned blocks
are rejected; otherwise advance the unpin side, removing a `FullyUnpinned`
entry. -/
def unregister_block (s : SubscriptionState) (hash : Hash) : Bool × SubscriptionState :=
  match lookupA s.blocks hash with
  | some bs =>
      if bs.state_machine.was_unpinned then (false, s)
      else
        let bs1 : BlockState := { bs with state_machine := bs.state_machine.advance_unpin }
        if bs1.state_machine = .FullyUnpinned then
          (true, { s with blocks := eraseA s.blocks hash })
        else
          (true, { s with blocks := insertA s.blocks hash bs1 })
  | none => (false, s)

/-- `SubscriptionState::contains_block`: registered and not yet unpinned. -/
def contains_block (s : SubscriptionState) (hash : Hash) : Bool :=
  match lookupA s.blocks hash with
  | none => false
  | some bs => !bs.state_machine.was_unpinned

/-- `SubscriptionState::find_oldest_block_timestamp`: start from `now`
(`Instant::now()`) and take the minimum over all entries. -/
def find_oldest_block_timestamp (s : SubscriptionState) (now : Instant) : Instant :=
  s.blocks.foldl (fun timestamp p => min timestamp p.2.timestamp) now

/-- `SubscriptionState::register_operation`: delegate to the ledger. -/
def register_operation (s : SubscriptionState) (to_reserve : Nat) :
    Option (RegisteredOperation × SubscriptionState) :=
  match s.operations.register_operation to_reserve with
  | none => none
  | some (op, ops1) => some (op, { s with operations := ops1 })

/-- `SubscriptionState::get_operation`: delegate to the ledger (read-only). -/
def get_operation (s : SubscriptionState) (id : String) : Option OperationState :=
  s.operations.get_operation id

end SubscriptionState

/-! ## Errors, backend events, block guard -/

inductive SubscriptionManagementError
  | SubscriptionAbsent
  | BlockHashAbsent
  | DuplicateHashes
  | ExceededLimits
  | Custom (msg : String)
deriving DecidableEq, Repr

/-- A call the registry made into the backend. -/
inductive BackendEvent
  | pin (hash : Hash)
  | unpin (hash : Hash)
deriving DecidableEq, Repr

/-- `BlockGuard`: the hash, the subscription's `with_runtime` flag and the
owned operation (the backend handle and event sender are collaborators). -/
structure BlockGuard where
  hash : Hash
  with_runtime : Bool
  operation : RegisteredOperation
deriving DecidableEq, Repr

/-! ## The registry (`SubscriptionsInner`) -/

structure SubscriptionsInner where
  global_blocks : List (Hash × Nat)
  global_max_pinned_blocks : Nat
  local_max_pin_duration : Nat
  max_ongoing_operations : Nat
  subs : List (SubId × SubscriptionState)
  log : List BackendEvent
deriving DecidableEq, Repr

namespace SubscriptionsInner

/-- `SubscriptionsInner::new`. -/
def new (global_max_pinned_blocks local_max_pin_duration max_ongoing_operations : Nat) :
    SubscriptionsInner :=
  { global_blocks := []
    global_max_pinned_blocks := global_max_pinned_blocks
    local_max_pin_duration := local_max_pin_duration
    max_ongoing_operations := max_ongoing_operations
    subs := []
    log := [] }

/-- `SubscriptionsInner::insert_subscription`: occupied ids are refused; the
returned `InsertedSubscriptionData` is a pair of channel receivers, modelled
by the `Bool` of whether insertion happened. -/
def insert_subscription (st : SubscriptionsInner) (sub_id : SubId) (with_runtime : Bool) :
    Bool × SubscriptionsInner :=
  match lookupA st.subs sub_id with
  | some _ => (false, st)
  | none =>
      let state : SubscriptionState :=
        { with_runtime := with_runtime
          tx_stop := true
          operations := Operations.new st.max_ongoing_operations
          blocks := [] }
      (true, { st with subs := insertA st.subs sub_id state })

/-- `SubscriptionsInner::global_unregister_block`: decrement the refcount,
unpinning from the backend and removing the entry when it reaches zero. -/
def global_unregister_block (st : SubscriptionsInner) (hash : Hash) : SubscriptionsInner :=
  match lookupA st.global_blocks hash with
  | none => st
  | some counter =>
      if counter = 1 then
        { st with global_blocks := eraseA st.global_blocks hash,
                  log := st.log ++ [.unpin hash] }
      else
        { st with global_blocks := insertA st.global_blocks hash (counter - 1) }

/-- The loop of `remove_subscription`: globally unregister every block of the
removed subscription that was not already unpinned. -/
def unregister_live_blocks (st : SubscriptionsInner) (blocks : List (Hash × BlockState)) :
    SubscriptionsInner :=
  blocks.foldl
    (fun acc p =>
      if p.2.state_machine.was_unpinned then acc else acc.global_unregister_block p.1)
    st

/-- `SubscriptionsInner::remove_subscription`: extract the state, fire its
stop signal, and drop the global references of its still-live blocks. -/
def remove_subscription (st : SubscriptionsInner) (sub_id : SubId) : SubscriptionsInner :=
  match lookupA st.subs sub_id with
  | none => st
  | some sub =>
      let st1 : SubscriptionsInner := { st with subs := eraseA st.subs sub_id }
      unregister_live_blocks st1 sub.blocks

/-- `SubscriptionsInner::stop_all_subscriptions`. -/
def stop_all_subscriptions (st : SubscriptionsInner) : SubscriptionsInner :=
  (keysA st.subs).foldl remove_subscription st

/-- The pass-1 eviction list of `ensure_block_space`: every subscription whose
oldest block is older than `local_max_pin_duration`, or whose oldest timestamp
is in the future (`now.checked_duration_since(sub_time)` returning `None`). -/
def stale_subscriptions (st : SubscriptionsInner) (now : Instant) : List SubId :=
  st.subs.filterMap (fun p =>
    let sub_time := p.2.find_oldest_block_timestamp now
    let should_remove :=
      if sub_time ≤ now then decide (st.local_max_pin_duration < now - sub_time)
      else true
    if should_remove then some p.1 else none)

/-- `SubscriptionsInner::ensure_block_space`: below the cap nothing happens;
otherwise pass 1 removes the stale subscriptions; if still at the cap, pass 2
removes every remaining subscription.  Returns whether `request_sub_id` was
removed. -/
def ensure_block_space (st : SubscriptionsInner) (request_sub_id : SubId) (now : Instant) :
    Bool × SubscriptionsInner :=
  if st.global_blocks.length < st.global_max_pinned_blocks then (false, st)
  else
    let to_remove := stale_subscriptions st now
    let is_terminated := to_remove.contains request_sub_id
    let st1 := to_remove.foldl remove_subscription st
    if st1.global_blocks.length < st1.global_max_pinned_blocks then (is_terminated, st1)
    else
      let to_remove2 := keysA st1.subs
      let is_terminated2 := is_terminated || to_remove2.contains request_sub_id
      (is_terminated2, to_remove2.foldl remove_subscription st1)

/-- `SubscriptionsInner::global_register_block`: increment an existing
refcount, or pin in the backend and insert with count 1; a backend failure
is surfaced as `Custom` with `global_blocks` untouched. -/
def global_register_block (st : SubscriptionsInner) (hash : Hash)
    (backendPin : Hash → Except String Unit) :
    Except SubscriptionManagementError Unit × SubscriptionsInner :=
  match lookupA st.global_blocks hash with
  | some counter =>
      (.ok (), { st with global_blocks := insertA st.global_blocks hash (counter + 1) })
  | none =>
      let st1 : SubscriptionsInner := { st with log := st.log ++ [.pin hash] }
      match backendPin hash with
      | .error err => (.error (.Custom err), st1)
      | .ok _ => (.ok (), { st1 with global_blocks := insertA st1.global_blocks hash 1 })

/-- `SubscriptionsInner::pin_block`: register with the subscription; a repeat
announcement returns `Ok(false)` at once; a first announcement makes room if
the hash is globally fresh (propagating `ExceededLimits` when the requester
itself was evicted) and then registers globally. -/
def pin_block (st : SubscriptionsInner) (sub_id : SubId) (hash : Hash) (now : Instant)
    (backendPin : Hash → Except String Unit) :
    Except SubscriptionManagementError Bool × SubscriptionsInner :=
  match lookupA st.subs sub_id with
  | none => (.error .SubscriptionAbsent, st)
  | some sub =>
      let reg := sub.register_block hash now
      let st1 : SubscriptionsInner := { st with subs := insertA st.subs sub_id reg.2 }
      if !reg.1 then (.ok false, st1)
      else
        let space :=
          if (lookupA st1.global_blocks hash).isNone then st1.ensure_block_space sub_id now
          else (false, st1)
        if space.1 then (.error .ExceededLimits, space.2)
        else
          match space.2.global_register_block hash backendPin with
          | (.error e, st3) => (.error e, st3)
          | (.ok _, st3) => (.ok true, st3)

/-- `SubscriptionsInner::ensure_hash_uniqueness`: fold the hashes through a
seen-set, failing with `DuplicateHashes` on the first repeat. -/
def ensure_hash_uniqueness_go (seen : List Hash) :
    List Hash → Except SubscriptionManagementError Unit
  | [] => .ok ()
  | h :: rest =>
      if seen.contains h then .error .DuplicateHashes
      else ensure_hash_uniqueness_go (h :: seen) rest

def ensure_hash_uniqueness (hashes : List Hash) : Except SubscriptionManagementError Unit :=
  ensure_hash_uniqueness_go [] hashes

/-- `SubscriptionsInner::unpin_blocks`: duplicates are rejected before any
lookup; every hash must be contained before any mutation; then each hash is
unregistered from the subscription and afterwards from the global tracking. -/
def unpin_blocks (st : SubscriptionsInner) (sub_id : SubId) (hashes : List Hash) :
    Except SubscriptionManagementError Unit × SubscriptionsInner :=
  match ensure_hash_uniqueness hashes with
  | .error e => (.error e, st)
  | .ok _ =>
      match lookupA st.subs sub_id with
      | none => (.error .SubscriptionAbsent, st)
      | some sub =>
          if hashes.all (fun h => sub.contains_block h) then
            let sub1 := hashes.foldl (fun s h => (s.unregister_block h).2) sub
            let st1 : SubscriptionsInner := { st with subs := insertA st.subs sub_id sub1 }
            (.ok (), hashes.foldl global_unregister_block st1)
          else (.error .BlockHashAbsent, st)

/-- `SubscriptionsInner::lock_block`: subscription and block must be present,
an operation is reserved, and `BlockGuard::new` pins the block in the backend
a second time; when that pin fails the freshly registered operation is
dropped again (id removed, permits returned). -/
def lock_block (st : SubscriptionsInner) (sub_id : SubId) (hash : Hash) (to_reserve : Nat)
    (backendPin : Hash → Except String Unit) :
    Except SubscriptionManagementError BlockGuard × SubscriptionsInner :=
  match lookupA st.subs sub_id with
  | none => (.error .SubscriptionAbsent, st)
  | some sub =>
      if !sub.contains_block hash then (.error .BlockHashAbsent, st)
      else
        match sub.register_operation to_reserve with
        | none => (.error .ExceededLimits, st)
        | some (op, sub1) =>
            let st1 : SubscriptionsInner :=
              { st with subs := insertA st.subs sub_id sub1, log := st.log ++ [.pin hash] }
            match backendPin hash with
            | .error err =>
                let sub2 : SubscriptionState :=
                  { sub1 with operations := drop_registered_operation op sub1.operations }
                (.error (.Custom err), { st1 with subs := insertA st1.subs sub_id sub2 })
            | .ok _ =>
                (.ok { hash := hash, with_runtime := sub.with_runtime, operation := op }, st1)

/-- `SubscriptionsInner::get_operation`: a pure read returning a cloned stop
handle; the registry state is returned unchanged. -/
def get_operation (st : SubscriptionsInner) (sub_id : SubId) (id : String) :
    Option OperationState × SubscriptionsInner :=
  match lookupA st.subs sub_id with
  | none => (none, st)
  | some sub => (sub.get_operation id, st)

end SubscriptionsInner

/-- `Drop for BlockGuard` unpins the guard's hash in the backend, then the
`operation` field drops (`Drop for RegisteredOperation` plus the permit). -/
def drop_block_guard (g : BlockGuard) (ops : Operations) (log : List BackendEvent) :
    Operations × List BackendEvent :=
  (drop_registered_operation g.operation ops, log ++ [.unpin g.hash])

/-! ## Observables and invariants -/

/-- The refcount stored for a hash, with absence read as zero. -/
def globalRefcount (st : SubscriptionsInner) (h : Hash) : Nat :=
  (lookupA st.global_blocks h).getD 0

/-- The number of subscriptions whose blocks map holds `h` in a state that is
not `Unpinned` or `FullyUnpinned` (the `contains_block` states). -/
def subCount (st : SubscriptionsInner) (h : Hash) : Nat :=
  (st.subs.filter (fun p => p.2.contains_block h)).length

/-- Whether the subscription `i` currently holds `h` live. -/
def liveIn (st : SubscriptionsInner) (i : SubId) (h : Hash) : Bool :=
  match lookupA st.subs i with
  | some sub => sub.contains_block h
  | none => false

/-- A refcount of `c` as it is stored: absent when zero, else the count. -/
def encodeCount (c : Nat) : Option Nat :=
  if c = 0 then none else some c

/-- One `global_unregister_block` step seen on a stored refcount. -/
def decOpt : Option Nat → Option Nat
  | none => none
  | some c => if c = 1 then none else some (c - 1)

/-- HashMap well-formedness: no duplicate keys anywhere. -/
def WF (st : SubscriptionsInner) : Prop :=
  (keysA st.global_blocks).Nodup ∧ (keysA st.subs).Nodup ∧
    ∀ p ∈ st.subs, (keysA p.2.blocks).Nodup

/-- The refcount invariant at one hash: the stored entry is exactly the
number of subscriptions holding the hash live (absent when zero). -/
def InvAt (st : SubscriptionsInner) (h : Hash) : Prop :=
  lookupA st.global_blocks h = encodeCount (subCount st h)

/-- The global registry invariant. -/
def Inv (st : SubscriptionsInner) : Prop :=
  WF st ∧ ∀ h, InvAt st h

/-- The intermediate shape inside `pin_block` after a fresh registration of
`h0` for `sub_id` but before the global registration: the invariant holds away
from `h0`, `h0` has no global entry, and no subscription other than `sub_id`
holds `h0` live. -/
def PDefect (st : SubscriptionsInner) (sub_id : SubId) (h0 : Hash) : Prop :=
  WF st ∧ (∀ h, h ≠ h0 → InvAt st h) ∧ lookupA st.global_blocks h0 = none ∧
    ∀ p ∈ st.subs, p.1 ≠ sub_id → p.2.contains_block h0 = false

/-- The states reachable from a fresh registry through the public calls,
restricted to runs in which no `pin_block` call surfaced a backend failure
(`Custom`); `get_operation` is read-only and is included for completeness. -/
inductive ReachableNC : SubscriptionsInner → Prop
  | init (gmax dur mops : Nat) : ReachableNC (SubscriptionsInner.new gmax dur mops)
  | insert_subscription {st : SubscriptionsInner} (sub_id : SubId) (wr : Bool) :
      ReachableNC st → ReachableNC (st.insert_subscription sub_id wr).2
  | remove_subscription {st : SubscriptionsInner} (sub_id : SubId) :
      ReachableNC st → ReachableNC (st.remove_subscription sub_id)
  | stop_all_subscriptions {st : SubscriptionsInner} :
      ReachableNC st → ReachableNC st.stop_all_subscriptions
  | pin_block {st : SubscriptionsInner} (sub_id : SubId) (hash : Hash) (now : Instant)
      (backendPin : Hash → Except String Unit)
      (hnc : ∀ msg, (st.pin_block sub_id hash now backendPin).1 ≠ .error (.Custom msg)) :
      ReachableNC st → ReachableNC (st.pin_block sub_id hash now backendPin).2
  | unpin_blocks {st : SubscriptionsInner} (sub_id : SubId) (hashes : List Hash) :
      ReachableNC st → ReachableNC (st.unpin_blocks sub_id hashes).2
  | lock_block {st : SubscriptionsInner} (sub_id : SubId) (hash : Hash) (to_reserve : Nat)
      (backendPin : Hash → Except String Unit) :
      ReachableNC st → ReachableNC (st.lock_block sub_id hash to_reserve backendPin).2
  | get_operation {st : SubscriptionsInner} (sub_id : SubId) (id : String) :
      ReachableNC st → ReachableNC (st.get_operation sub_id id).2

/-! ## Liveness observable and example states -/

def subC2 : SubscriptionState :=
  { with_runtime := true, tx_stop := true, operations := Operations.new 16,
    blocks := [(7, { state_machine := .Unpinned, timestamp := 2 })] }

def stC2 : SubscriptionsInner :=
  { global_blocks := [], global_max_pinned_blocks := 10, local_max_pin_duration := 5,
    max_ongoing_operations := 16, subs := [("a", subC2)], log := [] }

def subC3 : SubscriptionState :=
  { with_runtime := true, tx_stop := true, operations := Operations.new 16,
    blocks := [(7, { state_machine := .Registered, timestamp := 0 })] }

def stC3 : SubscriptionsInner :=
  { global_blocks := [(7, 1)], global_max_pinned_blocks := 10, local_max_pin_duration := 5,
    max_ongoing_operations := 16, subs := [("a", subC3)], log := [] }

def subC8 : SubscriptionState :=
  { with_runtime := true, tx_stop := true, operations := Operations.new 16,
    blocks := [(7, { state_machine := .Registered, timestamp := 0 })] }

def stC8 : SubscriptionsInner :=
  { global_blocks := [(7, 1)], global_max_pinned_blocks := 10, local_max_pin_duration := 5,
    max_ongoing_operations := 16, subs := [("a", subC8)], log := [] }

def stC1 : SubscriptionsInner :=
  ((((SubscriptionsInner.new 10 5 16).insert_subscription "a" true).2).pin_block "a" 7 0
    (fun _ => Except.ok ())).2

def stC4 : SubscriptionsInner :=
  ((((SubscriptionsInner.new 1 0 16).insert_subscription "a" true).2).pin_block "a" 5 0
    (fun _ => Except.ok ())).2

def subC5 : SubscriptionState :=
  { with_runtime := true, tx_stop := true, operations := Operations.new 2,
    blocks := [(7, { state_machine := .Registered, timestamp := 0 })] }

def stC5 : SubscriptionsInner :=
  { global_blocks := [(7, 1)], global_max_pinned_blocks := 10, local_max_pin_duration := 5,
    max_ongoing_operations := 2, subs := [("a", subC5)], log := [] }

def opC5 : RegisteredOperation := { operation_id := "0", num_permits := 1 }

def subC5b : SubscriptionState :=
  { subC5 with operations :=
      { next_operation_id := 1, limits := 1, operations := ["0"] } }

def stC10 : SubscriptionsInner :=
  (((SubscriptionsInner.new 10 5 16).insert_subscription "a" true)).2

def subC10 : SubscriptionState :=
  { with_runtime := true, tx_stop := true, operations := Operations.new 16, blocks := [] }

def opC10 : RegisteredOperation := { operation_id := "0", num_permits := 1 }

def subC10b : SubscriptionState :=
  { with_runtime := true, tx_stop := true,
    operations := { next_operation_id := 1, limits := 15, operations := ["0"] },
    blocks := [(7, { state_machine := .Registered, timestamp := 0 })] }

/-! ## Association-map lemmas -/

section AssocMapLemmas

variable {K : Type} {V : Type} [DecidableEq K]

theorem lookupA_insertA (l : List (K × V)) (k j : K) (v : V) :
    lookupA (insertA l k v) j = if j = k then some v else lookupA l j := by
  induction l with
  | nil =>
      by_cases hjk : j = k
      · subst hjk; simp [insertA, lookupA]
      · simp [insertA, lookupA, hjk, Ne.symm hjk]
  | cons p rest ih =>
      obtain ⟨a, b⟩ := p
      by_cases hak : a = k
      · subst hak
        by_cases hja : j = a
        · subst hja; simp [insertA, lookupA]
        · simp [insertA, lookupA, hja, Ne.symm hja]
      · by_cases haj : a = j
        · subst haj
          simp [insertA, lookupA, hak]
        · simp [insertA, lookupA, hak, haj, ih]

theorem lookupA_eraseA (l : List (K × V)) (k j : K) :
    lookupA (eraseA l k) j = if j = k then none else lookupA l j := by
  induction l with
  | nil =>
      by_cases hjk : j = k <;> simp [eraseA, lookupA, hjk]
  | cons p rest ih =>
      obtain ⟨a, b⟩ := p
      by_cases hak : a = k
      · subst hak
        by_cases hja : j = a
        · subst hja
          simp [eraseA, lookupA] at ih ⊢
          simpa using ih
        · simp [eraseA, lookupA, hja, Ne.symm hja] at ih ⊢
          simpa [hja] using ih
      · by_cases haj : a = j
        · subst haj
          have hjk : ¬ a = k := hak
          simp [eraseA, lookupA, hak, hjk]
        · simp [eraseA, lookupA, hak, haj] at ih ⊢
          exact ih

theorem lookupA_eq_none_iff (l : List (K × V)) (k : K) :
    lookupA l k = none ↔ k ∉ keysA l := by
  induction l with
  | nil => simp [lookupA, keysA]
  | cons p rest ih =>
      obtain ⟨a, b⟩ := p
      by_cases hak : a = k
      · subst hak
        simp [lookupA, keysA]
      · simp [lookupA, keysA, hak, ih]
        exact fun _ hc => hak hc.symm

theorem lookupA_mem {l : List (K × V)} {k : K} {v : V} (h : lookupA l k = some v) :
    (k, v) ∈ l := by
  induction l with
  | nil => simp [lookupA] at h
  | cons p rest ih =>
      obtain ⟨a, b⟩ := p
      by_cases hak : a = k
      · subst hak
        simp [lookupA] at h
        subst h
        exact List.mem_cons_self _ _
      · simp [lookupA, hak] at h
        exact List.mem_cons_of_mem _ (ih h)

theorem lookupA_of_mem_nodup {l : List (K × V)} {k : K} {v : V}
    (hmem : (k, v) ∈ l) (hnd : (keysA l).Nodup) : lookupA l k = some v := by
  induction l with
  | nil => simp at hmem
  | cons p rest ih =>
      obtain ⟨a, b⟩ := p
      simp only [keysA, List.map_cons, List.nodup_cons] at hnd
      rcases List.mem_cons.mp hmem with hc | hc
      · cases hc
        simp [lookupA]
      · by_cases hak : a = k
        · subst hak
          have : a ∈ keysA rest := List.mem_map_of_mem Prod.fst hc
          exact absurd this hnd.1
        · simp [lookupA, hak]
          exact ih hc hnd.2

theorem insertA_of_lookupA_none {l : List (K × V)} {k : K} (v : V)
    (h : lookupA l k = none) : insertA l k v = l ++ [(k, v)] := by
  induction l with
  | nil => simp [insertA]
  | cons p rest ih =>
      obtain ⟨a, b⟩ := p
      by_cases hak : a = k
      · simp [lookupA, hak] at h
      · simp [lookupA, hak] at h
        simp [insertA, hak, ih h]

theorem eraseA_of_lookupA_none {l : List (K × V)} {k : K}
    (h : lookupA l k = none) : eraseA l k = l := by
  induction l with
  | nil => rfl
  | cons p rest ih =>
      obtain ⟨a, b⟩ := p
      by_cases hak : a = k
      · simp [lookupA, hak] at h
      · simp [lookupA, hak] at h
        simp [eraseA, hak] at ih ⊢
        exact ih h

theorem mem_insertA {l : List (K × V)} {k : K} {v : V} {p : K × V}
    (h : p ∈ insertA l k v) : p ∈ l ∨ p = (k, v) := by
  induction l with
  | nil =>
      simp [insertA] at h
      right; exact h
  | cons q rest ih =>
      obtain ⟨a, b⟩ := q
      by_cases hak : a = k
      · simp [insertA, hak] at h
        rcases h with h | h
        · right; exact h
        · left; exact List.mem_cons_of_mem _ h
      · simp only [insertA, if_neg hak] at h
        rcases List.mem_cons.mp h with h | h
        · left; simp [h]
        · rcases ih h with h2 | h2
          · left; exact List.mem_cons_of_mem _ h2
          · right; exact h2

theorem mem_eraseA {l : List (K × V)} {k : K} {p : K × V}
    (h : p ∈ eraseA l k) : p ∈ l :=
  List.mem_of_mem_filter h

theorem keysA_insertA_of_mem {l : List (K × V)} {k : K} {v0 : V} (v : V)
    (h : lookupA l k = some v0) : keysA (insertA l k v) = keysA l := by
  induction l with
  | nil => simp [lookupA] at h
  | cons p rest ih =>
      obtain ⟨a, b⟩ := p
      by_cases hak : a = k
      · simp [insertA, keysA, hak]
      · simp [lookupA, hak] at h
        simp [insertA, keysA, hak] at ih ⊢
        exact ih h

theorem nodup_keysA_insertA {l : List (K × V)} {k : K} (v : V)
    (h : (keysA l).Nodup) : (keysA (insertA l k v)).Nodup := by
  cases hl : lookupA l k with
  | some v0 => rw [keysA_insertA_of_mem v hl]; exact h
  | none =>
      rw [insertA_of_lookupA_none v hl]
      have hk : k ∉ keysA l := (lookupA_eq_none_iff l k).mp hl
      simp only [keysA, List.map_append, List.map_cons, List.map_nil]
      rw [List.nodup_append]
      refine ⟨h, List.nodup_singleton _, ?_⟩
      intro a ha hb
      simp at hb
      subst hb
      exact hk ha

theorem keysA_eraseA (l : List (K × V)) (k : K) :
    keysA (eraseA l k) = (keysA l).filter (fun a => decide (a ≠ k)) := by
  induction l with
  | nil => rfl
  | cons p rest ih =>
      obtain ⟨a, b⟩ := p
      by_cases hak : a = k <;>
        simp [eraseA, keysA, hak, List.filter_cons] at ih ⊢ <;>
        simpa [eraseA, keysA] using ih

theorem nodup_keysA_eraseA {l : List (K × V)} (k : K)
    (h : (keysA l).Nodup) : (keysA (eraseA l k)).Nodup := by
  rw [keysA_eraseA]
  exact h.filter _

theorem length_filter_insertA (P : K × V → Bool) {l : List (K × V)} {k : K} {w : V}
    (v : V) (hk : lookupA l k = some w) (hnd : (keysA l).Nodup) :
    ((insertA l k v).filter P).length + (if P (k, w) then 1 else 0)
      = (l.filter P).length + (if P (k, v) then 1 else 0) := by
  induction l with
  | nil => simp [lookupA] at hk
  | cons p rest ih =>
      obtain ⟨a, b⟩ := p
      simp only [keysA, List.map_cons, List.nodup_cons] at hnd
      by_cases hak : a = k
      · subst hak
        simp [lookupA] at hk
        subst hk
        simp only [insertA, if_pos rfl, List.filter_cons]
        by_cases h1 : P (a, b) <;> by_cases h2 : P (a, v) <;> simp [h1, h2] <;> omega
      · simp [lookupA, hak] at hk
        simp only [insertA, if_neg hak, List.filter_cons]
        have hih := ih hk hnd.2
        by_cases h1 : P (a, b) <;> simp only [if_pos, if_neg, h1, List.length_cons,
          if_true, if_false] <;> simp [h1] at hih ⊢ <;> omega

theorem length_filter_eraseA (P : K × V → Bool) {l : List (K × V)} {k : K} {w : V}
    (hk : lookupA l k = some w) (hnd : (keysA l).Nodup) :
    ((eraseA l k).filter P).length + (if P (k, w) then 1 else 0) = (l.filter P).length := by
  induction l with
  | nil => simp [lookupA] at hk
  | cons p rest ih =>
      obtain ⟨a, b⟩ := p
      simp only [keysA, List.map_cons, List.nodup_cons] at hnd
      by_cases hak : a = k
      · subst hak
        simp [lookupA] at hk
        subst hk
        have hkr : lookupA rest a = none := by
          rw [lookupA_eq_none_iff]
          exact hnd.1
        have hrest : eraseA ((a, b) :: rest) a = rest := by
          have h2 := eraseA_of_lookupA_none hkr
          simp [eraseA] at h2 ⊢
          exact h2
        rw [hrest]
        simp only [List.filter_cons]
        by_cases h1 : P (a, b) <;> simp [h1]
      · simp [lookupA, hak] at hk
        have hstep : eraseA ((a, b) :: rest) k = (a, b) :: eraseA rest k := by
          simp [eraseA, hak]
        rw [hstep]
        simp only [List.filter_cons]
        have hih := ih hk hnd.2
        by_cases h1 : P (a, b) <;> simp [h1] at hih ⊢ <;> omega

theorem length_filter_append_single (P : K × V → Bool) (l : List (K × V)) (k : K) (v : V) :
    ((l ++ [(k, v)]).filter P).length = (l.filter P).length + (if P (k, v) then 1 else 0) := by
  by_cases h1 : P (k, v) <;> simp [List.filter_append, List.filter_cons, h1]

theorem eq_nil_of_lookupA_none (l : List (K × V)) (h : ∀ k, lookupA l k = none) :
    l = [] := by
  cases l with
  | nil => rfl
  | cons p rest =>
      have := h p.1
      simp [lookupA] at this

end AssocMapLemmas

open SubscriptionsInner

/-- Whether a blocks map holds `j` in a live (not yet unpinned) state. -/
def liveAt (blocks : List (Hash × BlockState)) (j : Hash) : Bool :=
  match lookupA blocks j with
  | none => false
  | some bs => !bs.state_machine.was_unpinned

/-! ## Generic fold invariant -/

theorem foldl_invariant {α β : Type} (P : α → Prop) (f : α → β → α) (l : List β) (a : α)
    (ha : P a) (hstep : ∀ x b, P x → P (f x b)) : P (l.foldl f a) := by
  induction l generalizing a with
  | nil => exact ha
  | cons x xs ih => exact ih _ (hstep a x ha)

theorem contains_block_eq_liveAt (s : SubscriptionState) (j : Hash) :
    s.contains_block j = liveAt s.blocks j := rfl

theorem liveAt_of_lookupA_none {blocks : List (Hash × BlockState)} {j : Hash}
    (h : lookupA blocks j = none) : liveAt blocks j = false := by
  simp [liveAt, h]

/-! ## SubscriptionState operation lemmas -/

theorem register_block_fst (s : SubscriptionState) (h : Hash) (now : Instant) :
    (s.register_block h now).1 = (lookupA s.blocks h).isNone := by
  cases hl : lookupA s.blocks h with
  | none => simp [SubscriptionState.register_block, hl]
  | some bs =>
      simp only [SubscriptionState.register_block, hl, Option.isNone_some]
      split <;> rfl

theorem register_block_contains (s : SubscriptionState) (h : Hash) (now : Instant) (j : Hash) :
    ((s.register_block h now).2).contains_block j =
      if j = h then ((s.register_block h now).1 || s.contains_block h)
      else s.contains_block j := by
  by_cases hjh : j = h
  · subst hjh
    cases hl : lookupA s.blocks j with
    | none =>
        simp [SubscriptionState.register_block, SubscriptionState.contains_block, hl,
          lookupA_insertA, BlockStateMachine.new, BlockStateMachine.was_unpinned]
    | some bs =>
        cases hsm : bs.state_machine <;>
          simp [SubscriptionState.register_block, SubscriptionState.contains_block, hl, hsm,
            BlockStateMachine.advance_register, BlockStateMachine.was_unpinned,
            lookupA_insertA, lookupA_eraseA]
  · cases hl : lookupA s.blocks h with
    | none =>
        simp [SubscriptionState.register_block, SubscriptionState.contains_block, hl,
          lookupA_insertA, hjh]
    | some bs =>
        cases hsm : bs.state_machine <;>
          simp [SubscriptionState.register_block, SubscriptionState.contains_block, hl, hsm,
            BlockStateMachine.advance_register, BlockStateMachine.was_unpinned,
            lookupA_insertA, lookupA_eraseA, hjh]

theorem register_block_nodup (s : SubscriptionState) (h : Hash) (now : Instant)
    (hnd : (keysA s.blocks).Nodup) : (keysA ((s.register_block h now).2).blocks).Nodup := by
  cases hl : lookupA s.blocks h with
  | none =>
      simp only [SubscriptionState.register_block, hl]
      exact nodup_keysA_insertA _ hnd
  | some bs =>
      simp only [SubscriptionState.register_block, hl]
      split
      · exact nodup_keysA_eraseA _ hnd
      · exact nodup_keysA_insertA _ hnd

theorem register_block_operations (s : SubscriptionState) (h : Hash) (now : Instant) :
    ((s.register_block h now).2).operations = s.operations := by
  cases hl : lookupA s.blocks h with
  | none => simp [SubscriptionState.register_block, hl]
  | some bs =>
      simp only [SubscriptionState.register_block, hl]
      split <;> rfl

theorem unregister_block_fst (s : SubscriptionState) (h : Hash) :
    (s.unregister_block h).1 = s.contains_block h := by
  cases hl : lookupA s.blocks h with
  | none => simp [SubscriptionState.unregister_block, SubscriptionState.contains_block, hl]
  | some bs =>
      by_cases hu : bs.state_machine.was_unpinned
      · simp [SubscriptionState.unregister_block, SubscriptionState.contains_block, hl, hu]
      · simp [SubscriptionState.unregister_block, SubscriptionState.contains_block, hl, hu,
          apply_ite Prod.fst]

theorem unregister_block_contains (s : SubscriptionState) (h : Hash) (j : Hash) :
    ((s.unregister_block h).2).contains_block j =
      if j = h then false else s.contains_block j := by
  by_cases hjh : j = h
  · subst hjh
    cases hl : lookupA s.blocks j with
    | none => simp [SubscriptionState.unregister_block, SubscriptionState.contains_block, hl]
    | some bs =>
        cases hsm : bs.state_machine <;>
          simp [SubscriptionState.unregister_block, SubscriptionState.contains_block, hl, hsm,
            BlockStateMachine.advance_unpin, BlockStateMachine.was_unpinned,
            lookupA_insertA, lookupA_eraseA]
  · cases hl : lookupA s.blocks h with
    | none => simp [SubscriptionState.unregister_block, SubscriptionState.contains_block, hl, hjh]
    | some bs =>
        cases hsm : bs.state_machine <;>
          simp [SubscriptionState.unregister_block, SubscriptionState.contains_block, hl, hsm,
            BlockStateMachine.advance_unpin, BlockStateMachine.was_unpinned,
            lookupA_insertA, lookupA_eraseA, hjh]

theorem unregister_block_nodup (s : SubscriptionState) (h : Hash)
    (hnd : (keysA s.blocks).Nodup) : (keysA ((s.unregister_block h).2).blocks).Nodup := by
  cases hl : lookupA s.blocks h with
  | none => simpa [SubscriptionState.unregister_block, hl] using hnd
  | some bs =>
      simp only [SubscriptionState.unregister_block, hl]
      split
      · exact hnd
      · split
        · exact nodup_keysA_eraseA _ hnd
        · exact nodup_keysA_insertA _ hnd

theorem unregister_block_operations (s : SubscriptionState) (h : Hash) :
    ((s.unregister_block h).2).operations = s.operations := by
  cases hl : lookupA s.blocks h with
  | none => simp [SubscriptionState.unregister_block, hl]
  | some bs =>
      simp only [SubscriptionState.unregister_block, hl]
      split
      · rfl
      · split <;> rfl

/-! ## global_unregister_block lemmas -/

theorem gu_subs (st : SubscriptionsInner) (h : Hash) :
    (st.global_unregister_block h).subs = st.subs := by
  unfold SubscriptionsInner.global_unregister_block
  split
  · rfl
  · split <;> rfl

theorem gu_gmax (st : SubscriptionsInner) (h : Hash) :
    (st.global_unregister_block h).global_max_pinned_blocks = st.global_max_pinned_blocks := by
  unfold SubscriptionsInner.global_unregister_block
  split
  · rfl
  · split <;> rfl

theorem gu_global_lookup (st : SubscriptionsInner) (h j : Hash) :
    lookupA (st.global_unregister_block h).global_blocks j =
      if j = h then decOpt (lookupA st.global_blocks h)
      else lookupA st.global_blocks j := by
  cases hl : lookupA st.global_blocks h with
  | none =>
      simp only [SubscriptionsInner.global_unregister_block, hl, decOpt]
      split <;> simp_all
  | some c =>
      by_cases hc : c = 1
      · subst hc
        simp only [SubscriptionsInner.global_unregister_block, hl, decOpt, if_pos rfl]
        simp [lookupA_eraseA]
      · simp only [SubscriptionsInner.global_unregister_block, hl, decOpt, if_neg hc]
        simp [lookupA_insertA]

theorem gu_nodup (st : SubscriptionsInner) (h : Hash)
    (hnd : (keysA st.global_blocks).Nodup) :
    (keysA (st.global_unregister_block h).global_blocks).Nodup := by
  unfold SubscriptionsInner.global_unregister_block
  split
  · exact hnd
  · split
    · exact nodup_keysA_eraseA _ hnd
    · exact nodup_keysA_insertA _ hnd

theorem gu_subCount (st : SubscriptionsInner) (h j : Hash) :
    subCount (st.global_unregister_block h) j = subCount st j := by
  unfold subCount
  rw [gu_subs]

/-! ## unregister_live_blocks (the loop of remove_subscription) -/

theorem ulb_cons (st : SubscriptionsInner) (p : Hash × BlockState)
    (rest : List (Hash × BlockState)) :
    unregister_live_blocks st (p :: rest) =
      unregister_live_blocks
        (if p.2.state_machine.was_unpinned then st else st.global_unregister_block p.1)
        rest := rfl

theorem ulb_subs (blocks : List (Hash × BlockState)) (st : SubscriptionsInner) :
    (unregister_live_blocks st blocks).subs = st.subs := by
  induction blocks generalizing st with
  | nil => rfl
  | cons p rest ih =>
      rw [ulb_cons, ih]
      split
      · rfl
      · exact gu_subs st p.1

theorem ulb_gmax (blocks : List (Hash × BlockState)) (st : SubscriptionsInner) :
    (unregister_live_blocks st blocks).global_max_pinned_blocks
      = st.global_max_pinned_blocks := by
  induction blocks generalizing st with
  | nil => rfl
  | cons p rest ih =>
      rw [ulb_cons, ih]
      split
      · rfl
      · exact gu_gmax st p.1

theorem liveAt_cons (a : Hash) (bs : BlockState) (rest : List (Hash × BlockState)) (j : Hash) :
    liveAt ((a, bs) :: rest) j =
      if a = j then !bs.state_machine.was_unpinned else liveAt rest j := by
  by_cases haj : a = j <;> simp [liveAt, lookupA, haj]

theorem ulb_global_lookup (blocks : List (Hash × BlockState)) :
    ∀ (st : SubscriptionsInner) (j : Hash), (keysA blocks).Nodup →
      lookupA (unregister_live_blocks st blocks).global_blocks j =
        if liveAt blocks j then decOpt (lookupA st.global_blocks j)
        else lookupA st.global_blocks j := by
  induction blocks with
  | nil => intro st j hnd; simp [unregister_live_blocks, liveAt, lookupA]
  | cons p rest ih =>
      intro st j hnd
      obtain ⟨a, bs⟩ := p
      simp only [keysA, List.map_cons, List.nodup_cons] at hnd
      rw [ulb_cons, liveAt_cons]
      by_cases haj : a = j
      · subst haj
        have hrest : liveAt rest a = false :=
          liveAt_of_lookupA_none ((lookupA_eq_none_iff rest a).mpr hnd.1)
        rw [ih _ a hnd.2, hrest]
        by_cases hu : bs.state_machine.was_unpinned <;>
          simp [hu, gu_global_lookup]
      · have hx : lookupA
            (if bs.state_machine.was_unpinned then st
             else st.global_unregister_block a).global_blocks j
            = lookupA st.global_blocks j := by
          split
          · rfl
          · rw [gu_global_lookup, if_neg (fun hc : j = a => haj hc.symm)]
        rw [ih _ j hnd.2, hx, if_neg haj]

theorem ulb_nodup (st : SubscriptionsInner) (blocks : List (Hash × BlockState))
    (hnd : (keysA st.global_blocks).Nodup) :
    (keysA (unregister_live_blocks st blocks).global_blocks).Nodup := by
  unfold unregister_live_blocks
  refine foldl_invariant (fun (x : SubscriptionsInner) => (keysA x.global_blocks).Nodup)
    _ _ _ hnd ?_
  intro x p hx
  split
  · exact hx
  · exact gu_nodup _ _ hx

/-! ## remove_subscription lemmas -/

theorem remove_subscription_subs (st : SubscriptionsInner) (i : SubId) :
    (st.remove_subscription i).subs = eraseA st.subs i := by
  unfold SubscriptionsInner.remove_subscription
  cases hl : lookupA st.subs i with
  | none => simp [eraseA_of_lookupA_none hl]
  | some sub => simp [ulb_subs]

theorem remove_subscription_subs_lookup (st : SubscriptionsInner) (i j : SubId) :
    lookupA (st.remove_subscription i).subs j =
      if j = i then none else lookupA st.subs j := by
  rw [remove_subscription_subs, lookupA_eraseA]

theorem remove_subscription_gmax (st : SubscriptionsInner) (i : SubId) :
    (st.remove_subscription i).global_max_pinned_blocks = st.global_max_pinned_blocks := by
  unfold SubscriptionsInner.remove_subscription
  cases hl : lookupA st.subs i with
  | none => rfl
  | some sub => simp [ulb_gmax]

theorem liveIn_eq_contains (st : SubscriptionsInner) (i : SubId) (h : Hash)
    (sub : SubscriptionState) (hl : lookupA st.subs i = some sub) :
    liveIn st i h = sub.contains_block h := by
  simp [liveIn, hl]

theorem remove_subscription_global_lookup (st : SubscriptionsInner) (i : SubId) (h : Hash)
    (hwf : WF st) :
    lookupA (st.remove_subscription i).global_blocks h =
      if liveIn st i h then decOpt (lookupA st.global_blocks h)
      else lookupA st.global_blocks h := by
  unfold SubscriptionsInner.remove_subscription
  cases hl : lookupA st.subs i with
  | none => simp [liveIn, hl]
  | some sub =>
      have hnd : (keysA sub.blocks).Nodup := hwf.2.2 (i, sub) (lookupA_mem hl)
      rw [ulb_global_lookup sub.blocks _ h hnd]
      rw [liveIn_eq_contains st i h sub hl, contains_block_eq_liveAt]

theorem remove_subscription_subCount (st : SubscriptionsInner) (i : SubId) (h : Hash)
    (hnd : (keysA st.subs).Nodup) :
    subCount (st.remove_subscription i) h + (if liveIn st i h then 1 else 0)
      = subCount st h := by
  unfold subCount
  rw [remove_subscription_subs]
  cases hl : lookupA st.subs i with
  | none =>
      rw [eraseA_of_lookupA_none hl]
      simp [liveIn, hl]
  | some sub =>
      have := length_filter_eraseA (fun p => p.2.contains_block h) hl hnd
      simp only at this
      rw [liveIn_eq_contains st i h sub hl]
      exact this

theorem remove_subscription_wf (st : SubscriptionsInner) (i : SubId) (hwf : WF st) :
    WF (st.remove_subscription i) := by
  obtain ⟨hg, hs, hb⟩ := hwf
  refine ⟨?_, ?_, ?_⟩
  · unfold SubscriptionsInner.remove_subscription
    cases hl : lookupA st.subs i with
    | none => exact hg
    | some sub => exact ulb_nodup _ _ hg
  · rw [remove_subscription_subs]
    exact nodup_keysA_eraseA _ hs
  · rw [remove_subscription_subs]
    intro p hp
    exact hb p (mem_eraseA hp)

theorem liveIn_le_subCount (st : SubscriptionsInner) (i : SubId) (h : Hash)
    (hlive : liveIn st i h = true) : 1 ≤ subCount st h := by
  unfold liveIn at hlive
  cases hl : lookupA st.subs i with
  | none => rw [hl] at hlive; simp at hlive
  | some sub =>
      rw [hl] at hlive
      have hmem : (i, sub) ∈ st.subs := lookupA_mem hl
      have hmf : (i, sub) ∈ st.subs.filter (fun p => p.2.contains_block h) :=
        List.mem_filter.mpr ⟨hmem, hlive⟩
      have := List.length_pos.mpr (List.ne_nil_of_mem hmf)
      unfold subCount
      omega

theorem decOpt_encodeCount {c : Nat} (hc : 1 ≤ c) :
    decOpt (encodeCount c) = encodeCount (c - 1) := by
  cases c with
  | zero => omega
  | succ n =>
      cases n with
      | zero => simp [decOpt, encodeCount]
      | succ m => simp [decOpt, encodeCount]

theorem remove_subscription_InvAt (st : SubscriptionsInner) (i : SubId) (h : Hash)
    (hwf : WF st) (hinv : InvAt st h) : InvAt (st.remove_subscription i) h := by
  unfold InvAt at *
  rw [remove_subscription_global_lookup st i h hwf]
  have hcount := remove_subscription_subCount st i h hwf.2.1
  by_cases hlive : liveIn st i h = true
  · rw [if_pos hlive, hinv, decOpt_encodeCount (liveIn_le_subCount st i h hlive)]
    have heq : subCount (st.remove_subscription i) h = subCount st h - 1 := by
      rw [hlive] at hcount
      simp at hcount
      omega
    rw [heq]
  · have hlive2 : liveIn st i h = false := by
      cases hb : liveIn st i h
      · rfl
      · exact absurd hb hlive
    rw [hlive2] at hcount ⊢
    simp at hcount ⊢
    rw [hinv, hcount]

theorem remove_subscription_Inv (st : SubscriptionsInner) (i : SubId) (hinv : Inv st) :
    Inv (st.remove_subscription i) :=
  ⟨remove_subscription_wf st i hinv.1,
   fun h => remove_subscription_InvAt st i h hinv.1 (hinv.2 h)⟩

/-! ## Folds of remove_subscription -/

theorem foldl_remove_subs_lookup (L : List SubId) :
    ∀ (st : SubscriptionsInner) (j : SubId),
      lookupA ((L.foldl SubscriptionsInner.remove_subscription st).subs) j =
        if j ∈ L then none else lookupA st.subs j := by
  induction L with
  | nil => intro st j; simp
  | cons i L ih =>
      intro st j
      simp only [List.foldl_cons]
      rw [ih]
      by_cases hjL : j ∈ L
      · simp [hjL]
      · by_cases hji : j = i
        · subst hji
          simp [hjL, remove_subscription_subs_lookup]
        · simp [hjL, hji, remove_subscription_subs_lookup]

theorem foldl_remove_gmax (L : List SubId) :
    ∀ (st : SubscriptionsInner),
      (L.foldl SubscriptionsInner.remove_subscription st).global_max_pinned_blocks
        = st.global_max_pinned_blocks := by
  induction L with
  | nil => intro st; rfl
  | cons i L ih =>
      intro st
      simp only [List.foldl_cons]
      rw [ih, remove_subscription_gmax]

theorem foldl_remove_wf (L : List SubId) (st : SubscriptionsInner) (hwf : WF st) :
    WF (L.foldl SubscriptionsInner.remove_subscription st) :=
  foldl_invariant WF _ L st hwf (fun x i hx => remove_subscription_wf x i hx)

theorem foldl_remove_Inv (L : List SubId) (st : SubscriptionsInner) (hinv : Inv st) :
    Inv (L.foldl SubscriptionsInner.remove_subscription st) :=
  foldl_invariant Inv _ L st hinv (fun x i hx => remove_subscription_Inv x i hx)

/-! ## ensure_block_space: the three outcome shapes -/

theorem ensure_block_space_cases (st : SubscriptionsInner) (r : SubId) (now : Instant) :
    (st.global_blocks.length < st.global_max_pinned_blocks ∧
      st.ensure_block_space r now = (false, st)) ∨
    (¬ st.global_blocks.length < st.global_max_pinned_blocks ∧
      ((stale_subscriptions st now).foldl SubscriptionsInner.remove_subscription
          st).global_blocks.length <
        ((stale_subscriptions st now).foldl SubscriptionsInner.remove_subscription
          st).global_max_pinned_blocks ∧
      st.ensure_block_space r now = ((stale_subscriptions st now).contains r,
        (stale_subscriptions st now).foldl SubscriptionsInner.remove_subscription st)) ∨
    (¬ st.global_blocks.length < st.global_max_pinned_blocks ∧
      ¬ ((stale_subscriptions st now).foldl SubscriptionsInner.remove_subscription
          st).global_blocks.length <
        ((stale_subscriptions st now).foldl SubscriptionsInner.remove_subscription
          st).global_max_pinned_blocks ∧
      st.ensure_block_space r now =
        ((stale_subscriptions st now).contains r ||
          (keysA ((stale_subscriptions st now).foldl
              SubscriptionsInner.remove_subscription st).subs).contains r,
          (keysA ((stale_subscriptions st now).foldl
              SubscriptionsInner.remove_subscription st).subs).foldl
            SubscriptionsInner.remove_subscription
            ((stale_subscriptions st now).foldl
              SubscriptionsInner.remove_subscription st))) := by
  by_cases h1 : st.global_blocks.length < st.global_max_pinned_blocks
  · refine Or.inl ⟨h1, ?_⟩
    unfold SubscriptionsInner.ensure_block_space
    rw [if_pos h1]
  · by_cases h2 : ((stale_subscriptions st now).foldl
        SubscriptionsInner.remove_subscription st).global_blocks.length <
        ((stale_subscriptions st now).foldl SubscriptionsInner.remove_subscription
          st).global_max_pinned_blocks
    · refine Or.inr (Or.inl ⟨h1, h2, ?_⟩)
      unfold SubscriptionsInner.ensure_block_space
      rw [if_neg h1]
      dsimp only
      rw [if_pos h2]
    · refine Or.inr (Or.inr ⟨h1, h2, ?_⟩)
      unfold SubscriptionsInner.ensure_block_space
      rw [if_neg h1]
      dsimp only
      rw [if_neg h2]

theorem ensure_block_space_Inv (st : SubscriptionsInner) (r : SubId) (now : Instant)
    (hinv : Inv st) : Inv (st.ensure_block_space r now).2 := by
  rcases ensure_block_space_cases st r now with ⟨h1, heq⟩ | ⟨h1, h2, heq⟩ | ⟨h1, h2, heq⟩
  · rw [heq]; exact hinv
  · rw [heq]; exact foldl_remove_Inv _ _ hinv
  · rw [heq]; exact foldl_remove_Inv _ _ (foldl_remove_Inv _ _ hinv)

theorem mem_stale_subscriptions {st : SubscriptionsInner} {now : Instant} {r : SubId}
    (h : r ∈ stale_subscriptions st now) : ∃ sub, (r, sub) ∈ st.subs := by
  unfold stale_subscriptions at h
  rcases List.mem_filterMap.mp h with ⟨p, hp, hsome⟩
  refine ⟨p.2, ?_⟩
  have hpr : p.1 = r := by
    dsimp only at hsome
    split_ifs at hsome
    all_goals first
      | exact Option.some.inj hsome
      | cases hsome
  rw [← hpr]
  exact hp

theorem lookupA_isSome_of_mem {l : List (SubId × SubscriptionState)} {r : SubId}
    {sub : SubscriptionState} (h : (r, sub) ∈ l) : (lookupA l r).isSome := by
  cases hl : lookupA l r with
  | some v => rfl
  | none =>
      have : r ∉ keysA l := (lookupA_eq_none_iff l r).mp hl
      exact absurd (List.mem_map_of_mem Prod.fst h) this

theorem ensure_block_space_false_lookup (st : SubscriptionsInner) (r : SubId) (now : Instant)
    (hflag : (st.ensure_block_space r now).1 = false) :
    lookupA (st.ensure_block_space r now).2.subs r = lookupA st.subs r := by
  rcases ensure_block_space_cases st r now with ⟨h1, heq⟩ | ⟨h1, h2, heq⟩ | ⟨h1, h2, heq⟩
  · rw [heq]
  · rw [heq] at hflag ⊢
    simp only [] at hflag
    simp at hflag
    rw [foldl_remove_subs_lookup, if_neg hflag]
  · rw [heq] at hflag ⊢
    simp only [] at hflag
    simp at hflag
    rw [foldl_remove_subs_lookup, if_neg hflag.2, foldl_remove_subs_lookup,
      if_neg hflag.1]

theorem ensure_block_space_true_lookup (st : SubscriptionsInner) (r : SubId) (now : Instant)
    (hflag : (st.ensure_block_space r now).1 = true) :
    lookupA (st.ensure_block_space r now).2.subs r = none ∧
      (lookupA st.subs r).isSome := by
  rcases ensure_block_space_cases st r now with ⟨h1, heq⟩ | ⟨h1, h2, heq⟩ | ⟨h1, h2, heq⟩
  · rw [heq] at hflag
    simp at hflag
  · rw [heq] at hflag ⊢
    simp only [] at hflag
    simp at hflag
    constructor
    · rw [foldl_remove_subs_lookup, if_pos hflag]
    · obtain ⟨sub, hsub⟩ := mem_stale_subscriptions hflag
      exact lookupA_isSome_of_mem hsub
  · rw [heq] at hflag ⊢
    simp only [] at hflag
    simp at hflag
    rcases hflag with hf1 | hf2
    · constructor
      · rw [foldl_remove_subs_lookup]
        by_cases hm : r ∈ keysA ((stale_subscriptions st now).foldl
            SubscriptionsInner.remove_subscription st).subs
        · rw [if_pos hm]
        · rw [if_neg hm, foldl_remove_subs_lookup, if_pos hf1]
      · obtain ⟨sub, hsub⟩ := mem_stale_subscriptions hf1
        exact lookupA_isSome_of_mem hsub
    · constructor
      · rw [foldl_remove_subs_lookup, if_pos hf2]
      · have hne : lookupA ((stale_subscriptions st now).foldl
            SubscriptionsInner.remove_subscription st).subs r ≠ none := by
          rw [Ne, lookupA_eq_none_iff]
          intro hc
          exact hc hf2
        rw [foldl_remove_subs_lookup] at hne
        by_cases hm : r ∈ stale_subscriptions st now
        · rw [if_pos hm] at hne
          exact absurd rfl hne
        · rw [if_neg hm] at hne
          cases hv : lookupA st.subs r with
          | some v => rfl
          | none => exact absurd hv hne

theorem ensure_block_space_terminated_iff (st : SubscriptionsInner) (r : SubId)
    (now : Instant) :
    (st.ensure_block_space r now).1 = true ↔
      ((lookupA st.subs r).isSome ∧
        lookupA (st.ensure_block_space r now).2.subs r = none) := by
  constructor
  · intro hflag
    obtain ⟨h1, h2⟩ := ensure_block_space_true_lookup st r now hflag
    exact ⟨h2, h1⟩
  · intro ⟨hsome, hnone⟩
    cases hflag : (st.ensure_block_space r now).1 with
    | true => rfl
    | false =>
        rw [ensure_block_space_false_lookup st r now hflag] at hnone
        rw [hnone] at hsome
        simp at hsome

/-- After `ensure_block_space`, under the invariant, either there is room below
the cap or the registry is completely empty. -/
theorem ensure_block_space_room (st : SubscriptionsInner) (r : SubId) (now : Instant)
    (hinv : Inv st) :
    (st.ensure_block_space r now).2.global_blocks.length < st.global_max_pinned_blocks ∨
      ((st.ensure_block_space r now).2.subs = [] ∧
        (st.ensure_block_space r now).2.global_blocks = []) := by
  rcases ensure_block_space_cases st r now with ⟨h1, heq⟩ | ⟨h1, h2, heq⟩ | ⟨h1, h2, heq⟩
  · rw [heq]; exact Or.inl h1
  · rw [heq]
    rw [foldl_remove_gmax] at h2
    exact Or.inl h2
  · rw [heq]
    refine Or.inr ?_
    have hsubs : ((keysA ((stale_subscriptions st now).foldl
        SubscriptionsInner.remove_subscription st).subs).foldl
          SubscriptionsInner.remove_subscription
          ((stale_subscriptions st now).foldl
            SubscriptionsInner.remove_subscription st)).subs = [] := by
      apply eq_nil_of_lookupA_none
      intro j
      rw [foldl_remove_subs_lookup]
      by_cases hj : j ∈ keysA ((stale_subscriptions st now).foldl
          SubscriptionsInner.remove_subscription st).subs
      · rw [if_pos hj]
      · rw [if_neg hj]
        exact (lookupA_eq_none_iff _ _).mpr hj
    refine ⟨hsubs, ?_⟩
    have hinv2 : Inv ((keysA ((stale_subscriptions st now).foldl
        SubscriptionsInner.remove_subscription st).subs).foldl
          SubscriptionsInner.remove_subscription
          ((stale_subscriptions st now).foldl
            SubscriptionsInner.remove_subscription st)) :=
      foldl_remove_Inv _ _ (foldl_remove_Inv _ _ hinv)
    apply eq_nil_of_lookupA_none
    intro h
    have := hinv2.2 h
    unfold InvAt at this
    rw [this]
    unfold subCount
    rw [hsubs]
    simp [encodeCount]

/-! ## insert_subscription -/

theorem insert_subscription_Inv (st : SubscriptionsInner) (id : SubId) (wr : Bool)
    (hinv : Inv st) : Inv (st.insert_subscription id wr).2 := by
  unfold SubscriptionsInner.insert_subscription
  cases hl : lookupA st.subs id with
  | some sub => exact hinv
  | none =>
      dsimp only
      obtain ⟨⟨hg, hs, hb⟩, hat⟩ := hinv
      constructor
      · refine ⟨hg, nodup_keysA_insertA _ hs, ?_⟩
        intro p hp
        rcases mem_insertA hp with hp2 | hp2
        · exact hb p hp2
        · rw [hp2]
          exact List.nodup_nil
      · intro h
        unfold InvAt at hat ⊢
        unfold subCount at *
        dsimp only
        rw [insertA_of_lookupA_none _ hl, length_filter_append_single]
        have : (SubscriptionState.contains_block
            { with_runtime := wr, tx_stop := true,
              operations := Operations.new st.max_ongoing_operations, blocks := [] } h)
            = false := rfl
        rw [this]
        simpa using hat h

/-! ## stop_all_subscriptions -/

theorem stop_all_subscriptions_Inv (st : SubscriptionsInner) (hinv : Inv st) :
    Inv st.stop_all_subscriptions :=
  foldl_remove_Inv _ _ hinv

/-! ## ensure_hash_uniqueness -/

theorem ehu_go_ok (hs : List Hash) :
    ∀ seen : List Hash, ensure_hash_uniqueness_go seen hs = .ok () ↔
      (hs.Nodup ∧ ∀ h ∈ hs, h ∉ seen) := by
  induction hs with
  | nil =>
      intro seen
      simp [ensure_hash_uniqueness_go]
  | cons h rest ih =>
      intro seen
      by_cases hc : seen.contains h
      · simp only [ensure_hash_uniqueness_go, hc, if_pos]
        simp at hc
        constructor
        · intro hfalse
          cases hfalse
        · intro ⟨hnd, hall⟩
          exact absurd hc (hall h (List.mem_cons_self h rest))
      · simp only [ensure_hash_uniqueness_go, hc, if_neg, Bool.false_eq_true,
          not_false_eq_true]
        simp at hc
        rw [ih (h :: seen)]
        constructor
        · intro ⟨hnd, hall⟩
          refine ⟨?_, ?_⟩
          · rw [List.nodup_cons]
            refine ⟨?_, hnd⟩
            intro hmem
            exact (hall h hmem) (List.mem_cons_self h seen)
          · intro x hx
            rcases List.mem_cons.mp hx with hx2 | hx2
            · rw [hx2]; exact hc
            · intro hxs
              exact (hall x hx2) (List.mem_cons_of_mem h hxs)
        · intro ⟨hnd, hall⟩
          rw [List.nodup_cons] at hnd
          refine ⟨hnd.2, ?_⟩
          intro x hx hxc
          rcases List.mem_cons.mp hxc with hx2 | hx2
          · rw [hx2] at hx
            exact hnd.1 hx
          · exact (hall x (List.mem_cons_of_mem h hx)) hx2

theorem ehu_ok_iff (hs : List Hash) :
    ensure_hash_uniqueness hs = .ok () ↔ hs.Nodup := by
  unfold SubscriptionsInner.ensure_hash_uniqueness
  rw [ehu_go_ok hs []]
  simp

theorem ehu_go_total (hs : List Hash) :
    ∀ seen : List Hash, ensure_hash_uniqueness_go seen hs = .ok () ∨
      ensure_hash_uniqueness_go seen hs = .error .DuplicateHashes := by
  induction hs with
  | nil => intro seen; exact Or.inl rfl
  | cons h rest ih =>
      intro seen
      by_cases hc : seen.contains h
      · right
        simp at hc
        simp [ensure_hash_uniqueness_go, hc]
      · simp only [ensure_hash_uniqueness_go, hc, Bool.false_eq_true, if_neg,
          not_false_eq_true]
        exact ih (h :: seen)

theorem ehu_error_of_dup (hs : List Hash) (hdup : ¬ hs.Nodup) :
    ensure_hash_uniqueness hs = .error .DuplicateHashes := by
  rcases ehu_go_total hs [] with hok | herr
  · exact absurd ((ehu_ok_iff hs).mp hok) hdup
  · exact herr

/-! ## Folds over the hash list of unpin_blocks -/

theorem foldl_unregister_contains (hs : List Hash) :
    ∀ (s : SubscriptionState) (j : Hash),
      (hs.foldl (fun s h => (s.unregister_block h).2) s).contains_block j =
        if j ∈ hs then false else s.contains_block j := by
  induction hs with
  | nil => intro s j; simp
  | cons h rest ih =>
      intro s j
      simp only [List.foldl_cons]
      rw [ih]
      by_cases hjr : j ∈ rest
      · simp [hjr]
      · rw [if_neg hjr, unregister_block_contains]
        by_cases hjh : j = h
        · subst hjh; simp
        · simp [hjh, hjr]

theorem foldl_unregister_operations (hs : List Hash) :
    ∀ s : SubscriptionState,
      (hs.foldl (fun s h => (s.unregister_block h).2) s).operations = s.operations := by
  induction hs with
  | nil => intro s; rfl
  | cons h rest ih =>
      intro s
      simp only [List.foldl_cons]
      rw [ih, unregister_block_operations]

theorem foldl_unregister_nodup (hs : List Hash) (s : SubscriptionState)
    (hnd : (keysA s.blocks).Nodup) :
    (keysA (hs.foldl (fun s h => (s.unregister_block h).2) s).blocks).Nodup :=
  foldl_invariant (fun (x : SubscriptionState) => (keysA x.blocks).Nodup) _ hs s hnd
    (fun x h hx => unregister_block_nodup x h hx)

theorem foldl_gu_subs (hs : List Hash) :
    ∀ st : SubscriptionsInner,
      (hs.foldl SubscriptionsInner.global_unregister_block st).subs = st.subs := by
  induction hs with
  | nil => intro st; rfl
  | cons h rest ih =>
      intro st
      simp only [List.foldl_cons]
      rw [ih, gu_subs]

theorem foldl_gu_global_lookup (hs : List Hash) :
    ∀ (st : SubscriptionsInner) (j : Hash), hs.Nodup →
      lookupA ((hs.foldl SubscriptionsInner.global_unregister_block st).global_blocks) j =
        if j ∈ hs then decOpt (lookupA st.global_blocks j)
        else lookupA st.global_blocks j := by
  induction hs with
  | nil => intro st j hnd; simp
  | cons h rest ih =>
      intro st j hnd
      rw [List.nodup_cons] at hnd
      simp only [List.foldl_cons]
      rw [ih _ _ hnd.2]
      by_cases hjr : j ∈ rest
      · have hjh : ¬ j = h := by
          intro hc
          rw [hc] at hjr
          exact hnd.1 hjr
        rw [gu_global_lookup, if_neg hjh, if_pos hjr, if_pos (List.mem_cons_of_mem h hjr)]
      · rw [if_neg hjr, gu_global_lookup]
        by_cases hjh : j = h
        · subst hjh
          rw [if_pos rfl, if_pos (List.mem_cons_self j rest)]
        · rw [if_neg hjh, if_neg (fun hc => by
            rcases List.mem_cons.mp hc with hc2 | hc2
            · exact hjh hc2
            · exact hjr hc2)]

theorem foldl_gu_nodup (hs : List Hash) (st : SubscriptionsInner)
    (hnd : (keysA st.global_blocks).Nodup) :
    (keysA ((hs.foldl SubscriptionsInner.global_unregister_block st).global_blocks)).Nodup :=
  foldl_invariant (fun (x : SubscriptionsInner) => (keysA x.global_blocks).Nodup) _ hs st hnd
    (fun x h hx => gu_nodup x h hx)

/-! ## unpin_blocks preserves the invariant -/

theorem unpin_blocks_Inv (st : SubscriptionsInner) (id : SubId) (hs : List Hash)
    (hinv : Inv st) : Inv (st.unpin_blocks id hs).2 := by
  unfold SubscriptionsInner.unpin_blocks
  cases hu : ensure_hash_uniqueness hs with
  | error e => exact hinv
  | ok u =>
      have hnd : hs.Nodup := (ehu_ok_iff hs).mp (by cases u; exact hu)
      cases hl : lookupA st.subs id with
      | none => exact hinv
      | some sub =>
          dsimp only
          by_cases hall : hs.all (fun h => sub.contains_block h)
          · rw [if_pos hall]
            have hall2 : ∀ h ∈ hs, sub.contains_block h = true := by
              intro h hh
              exact List.all_eq_true.mp hall h hh
            obtain ⟨⟨hg, hsnd, hb⟩, hat⟩ := hinv
            have hsubnd : (keysA sub.blocks).Nodup := hb (id, sub) (lookupA_mem hl)
            set sub1 : SubscriptionState :=
              hs.foldl (fun s h => (s.unregister_block h).2) sub with hsub1
            set st1 : SubscriptionsInner := { st with subs := insertA st.subs id sub1 }
              with hst1
            have hsub1c : ∀ j, sub1.contains_block j =
                if j ∈ hs then false else sub.contains_block j := by
              intro j
              rw [hsub1]
              exact foldl_unregister_contains hs sub j
            have hcount : ∀ j, subCount st1 j + (if sub.contains_block j then 1 else 0)
                = subCount st j + (if sub1.contains_block j then 1 else 0) := by
              intro j
              unfold subCount
              exact length_filter_insertA (fun p => p.2.contains_block j) _ hl hsnd
            have hst1subs : st1.subs = insertA st.subs id sub1 := rfl
            have hst1g : st1.global_blocks = st.global_blocks := rfl
            constructor
            · refine ⟨?_, ?_, ?_⟩
              · refine foldl_gu_nodup hs st1 ?_
                rw [hst1g]
                exact hg
              · rw [foldl_gu_subs, hst1subs]
                exact nodup_keysA_insertA _ hsnd
              · rw [foldl_gu_subs, hst1subs]
                intro p hp
                rcases mem_insertA hp with hp2 | hp2
                · exact hb p hp2
                · rw [hp2]
                  rw [hsub1]
                  exact foldl_unregister_nodup hs sub hsubnd
            · intro j
              unfold InvAt
              rw [foldl_gu_global_lookup hs st1 j hnd]
              have hsc : subCount
                  (hs.foldl SubscriptionsInner.global_unregister_block st1) j
                  = subCount st1 j := by
                unfold subCount
                rw [foldl_gu_subs]
              rw [hsc, hst1g]
              have hc1 := hcount j
              rw [hsub1c j] at hc1
              by_cases hj : j ∈ hs
              · have hlive : sub.contains_block j = true := hall2 j hj
                rw [if_pos hj] at hc1
                rw [hlive] at hc1
                simp at hc1
                have hge : 1 ≤ subCount st j := by
                  apply liveIn_le_subCount st id j
                  rw [liveIn_eq_contains st id j sub hl]
                  exact hlive
                rw [if_pos hj]
                have hat2 := hat j
                unfold InvAt at hat2
                rw [hat2, decOpt_encodeCount hge]
                have hsub2 : subCount st1 j = subCount st j - 1 := by omega
                rw [hsub2]
              · rw [if_neg hj] at hc1
                have hsub2 : subCount st1 j = subCount st j := by
                  by_cases hcb : sub.contains_block j = true
                  · rw [hcb] at hc1; simp at hc1; omega
                  · have : sub.contains_block j = false := by
                      cases hx : sub.contains_block j
                      · rfl
                      · exact absurd hx hcb
                    rw [this] at hc1; simp at hc1; omega
                rw [if_neg hj, hsub2]
                exact hat j
          · rw [if_neg hall]
            exact hinv

/-! ## Counting helpers -/

theorem encodeCount_none {c : Nat} (h : encodeCount c = none) : c = 0 := by
  unfold encodeCount at h
  by_cases hc : c = 0
  · exact hc
  · rw [if_neg hc] at h
    cases h

theorem encodeCount_some {c c2 : Nat} (h : encodeCount c = some c2) : c = c2 := by
  unfold encodeCount at h
  by_cases hc : c = 0
  · rw [if_pos hc] at h
    cases h
  · rw [if_neg hc] at h
    exact Option.some.inj h

theorem contains_false_of_subCount_zero {st : SubscriptionsInner} {j : Hash}
    (h : subCount st j = 0) : ∀ p ∈ st.subs, p.2.contains_block j = false := by
  unfold subCount at h
  rw [List.length_eq_zero] at h
  intro p hp
  have := List.filter_eq_nil_iff.mp h p hp
  cases hx : p.2.contains_block j
  · rfl
  · exact absurd hx this

theorem length_filter_eq_one {K V : Type} [DecidableEq K] (P : K × V → Bool) :
    ∀ (l : List (K × V)) (k : K) (v : V), (keysA l).Nodup →
      lookupA l k = some v → P (k, v) = true →
      (∀ p ∈ l, p.1 ≠ k → P p = false) →
      (l.filter P).length = 1 := by
  intro l
  induction l with
  | nil => intro k v hnd hl; simp [lookupA] at hl
  | cons p rest ih =>
      intro k v hnd hl hp hothers
      obtain ⟨a, b⟩ := p
      simp only [keysA, List.map_cons, List.nodup_cons] at hnd
      by_cases hak : a = k
      · subst hak
        simp [lookupA] at hl
        subst hl
        have hrest : rest.filter P = [] := by
          rw [List.filter_eq_nil_iff]
          intro q hq
          have hqa : q.1 ≠ a := by
            intro hceq
            exact hnd.1 (hceq ▸ List.mem_map_of_mem Prod.fst hq)
          have := hothers q (List.mem_cons_of_mem _ hq) hqa
          simp [this]
        simp [List.filter_cons, hp, hrest]
      · simp [lookupA, hak] at hl
        have hdead : P (a, b) = false :=
          hothers (a, b) (List.mem_cons_self _ _) hak
        simp only [List.filter_cons, hdead, Bool.false_eq_true, if_false]
        exact ih k v hnd.2 hl hp
          (fun q hq hqa => hothers q (List.mem_cons_of_mem _ hq) hqa)

theorem subCount_eq_one {st : SubscriptionsInner} {id : SubId} {sub : SubscriptionState}
    {j : Hash} (hnd : (keysA st.subs).Nodup) (hl : lookupA st.subs id = some sub)
    (hc : sub.contains_block j = true)
    (hothers : ∀ p ∈ st.subs, p.1 ≠ id → p.2.contains_block j = false) :
    subCount st j = 1 := by
  unfold subCount
  exact length_filter_eq_one (fun p => p.2.contains_block j) st.subs id sub hnd hl hc hothers

/-! ## Replacing a subscription without changing liveness -/

theorem Inv_update_sub_same_contains {s t : SubscriptionsInner} {i : SubId}
    {u v : SubscriptionState}
    (hl : lookupA s.subs i = some u)
    (hcont : ∀ j, v.contains_block j = u.contains_block j)
    (hbnd : (keysA v.blocks).Nodup)
    (hsubs : t.subs = insertA s.subs i v)
    (hglobal : t.global_blocks = s.global_blocks)
    (hinv : Inv s) : Inv t := by
  obtain ⟨⟨hg, hsnd, hb⟩, hat⟩ := hinv
  constructor
  · refine ⟨?_, ?_, ?_⟩
    · rw [hglobal]; exact hg
    · rw [hsubs]; exact nodup_keysA_insertA _ hsnd
    · rw [hsubs]
      intro p hp
      rcases mem_insertA hp with hp2 | hp2
      · exact hb p hp2
      · rw [hp2]; exact hbnd
  · intro j
    unfold InvAt
    rw [hglobal]
    have hcount : subCount t j + (if u.contains_block j then 1 else 0)
        = subCount s j + (if v.contains_block j then 1 else 0) := by
      unfold subCount
      rw [hsubs]
      exact length_filter_insertA (fun p => p.2.contains_block j) _ hl hsnd
    rw [hcont j] at hcount
    have : subCount t j = subCount s j := by omega
    rw [this]
    exact hat j

/-! ## lock_block -/

theorem register_operation_blocks {s : SubscriptionState} {n : Nat}
    {op : RegisteredOperation} {s1 : SubscriptionState}
    (h : s.register_operation n = some (op, s1)) : s1.blocks = s.blocks := by
  unfold SubscriptionState.register_operation at h
  cases hr : s.operations.register_operation n with
  | none => rw [hr] at h; cases h
  | some pr =>
      rw [hr] at h
      cases h
      rfl

theorem lock_block_Inv (st : SubscriptionsInner) (id : SubId) (hash : Hash)
    (n : Nat) (bp : Hash → Except String Unit) (hinv : Inv st) :
    Inv (st.lock_block id hash n bp).2 := by
  unfold SubscriptionsInner.lock_block
  cases hl : lookupA st.subs id with
  | none => exact hinv
  | some sub =>
      dsimp only
      by_cases hcb : sub.contains_block hash
      · rw [if_neg (by simp [hcb])]
        cases hro : sub.register_operation n with
        | none => exact hinv
        | some pr =>
            obtain ⟨op, sub1⟩ := pr
            dsimp only
            have hcont1 : ∀ j, sub1.contains_block j = sub.contains_block j := by
              intro j
              unfold SubscriptionState.contains_block
              rw [register_operation_blocks hro]
            have hbnd : (keysA sub1.blocks).Nodup := by
              rw [register_operation_blocks hro]
              exact hinv.1.2.2 (id, sub) (lookupA_mem hl)
            have hinv1 : Inv
                { st with subs := insertA st.subs id sub1,
                          log := st.log ++ [BackendEvent.pin hash] } :=
              Inv_update_sub_same_contains hl hcont1 hbnd rfl rfl hinv
            cases hbp : bp hash with
            | ok u => exact hinv1
            | error msg =>
                dsimp only
                have hl1 : lookupA (insertA st.subs id sub1) id = some sub1 := by
                  rw [lookupA_insertA]
                  simp
                refine Inv_update_sub_same_contains
                  (s := { st with subs := insertA st.subs id sub1,
                                  log := st.log ++ [BackendEvent.pin hash] })
                  hl1 ?_ ?_ rfl rfl hinv1
                · intro j
                  rfl
                · exact hbnd
      · rw [if_pos (by simp [hcb])]
        exact hinv

/-! ## PDefect preservation -/

theorem remove_subscription_PDefect (st : SubscriptionsInner) (i s : SubId) (h0 : Hash)
    (hp : PDefect st s h0) : PDefect (st.remove_subscription i) s h0 := by
  obtain ⟨hwf, hat, hg0, hdead⟩ := hp
  refine ⟨remove_subscription_wf st i hwf, ?_, ?_, ?_⟩
  · intro h hne
    exact remove_subscription_InvAt st i h hwf (hat h hne)
  · rw [remove_subscription_global_lookup st i h0 hwf, hg0]
    split <;> rfl
  · rw [remove_subscription_subs]
    intro p hp2 hpne
    exact hdead p (mem_eraseA hp2) hpne

theorem foldl_remove_PDefect (L : List SubId) (st : SubscriptionsInner) (s : SubId)
    (h0 : Hash) (hp : PDefect st s h0) :
    PDefect (L.foldl SubscriptionsInner.remove_subscription st) s h0 :=
  foldl_invariant (fun (x : SubscriptionsInner) => PDefect x s h0) _ L st hp
    (fun x i hx => remove_subscription_PDefect x i s h0 hx)

theorem ensure_block_space_PDefect (st : SubscriptionsInner) (r : SubId) (now : Instant)
    (s : SubId) (h0 : Hash) (hp : PDefect st s h0) :
    PDefect (st.ensure_block_space r now).2 s h0 := by
  rcases ensure_block_space_cases st r now with ⟨h1, heq⟩ | ⟨h1, h2, heq⟩ | ⟨h1, h2, heq⟩ <;>
    rw [heq]
  · exact hp
  · exact foldl_remove_PDefect _ _ _ _ hp
  · exact foldl_remove_PDefect _ _ _ _ (foldl_remove_PDefect _ _ _ _ hp)

/-- A defect state whose owning subscription has been removed satisfies the
full invariant. -/
theorem Inv_of_PDefect_removed (st : SubscriptionsInner) (s : SubId) (h0 : Hash)
    (hp : PDefect st s h0) (habsent : lookupA st.subs s = none) : Inv st := by
  obtain ⟨hwf, hat, hg0, hdead⟩ := hp
  refine ⟨hwf, ?_⟩
  intro h
  by_cases hne : h = h0
  · subst hne
    unfold InvAt
    rw [hg0]
    have hz : subCount st h = 0 := by
      unfold subCount
      rw [List.length_eq_zero, List.filter_eq_nil_iff]
      intro p hp2
      have hne2 : p.1 ≠ s := by
        intro hc
        have : s ∈ keysA st.subs := hc ▸ List.mem_map_of_mem Prod.fst hp2
        exact (lookupA_eq_none_iff _ _).mp habsent this
      rw [hdead p hp2 hne2]
      simp
    rw [hz]
    rfl
  · exact hat h hne

/-- A defect state whose hash is then globally registered with count 1
satisfies the full invariant. -/
theorem Inv_of_PDefect_registered (st st3 : SubscriptionsInner) (s : SubId) (h0 : Hash)
    (sub : SubscriptionState) (hp : PDefect st s h0)
    (hl : lookupA st.subs s = some sub) (hc : sub.contains_block h0 = true)
    (hsubs : st3.subs = st.subs)
    (hg3 : st3.global_blocks = insertA st.global_blocks h0 1) : Inv st3 := by
  obtain ⟨⟨hg, hsnd, hb⟩, hat, hg0, hdead⟩ := hp
  constructor
  · refine ⟨?_, ?_, ?_⟩
    · rw [hg3]
      exact nodup_keysA_insertA _ hg
    · rw [hsubs]; exact hsnd
    · rw [hsubs]; exact hb
  · intro j
    unfold InvAt
    have hsc : subCount st3 j = subCount st j := by
      unfold subCount
      rw [hsubs]
    rw [hg3, lookupA_insertA, hsc]
    by_cases hj : j = h0
    · subst hj
      rw [if_pos rfl]
      have h1 : subCount st j = 1 := subCount_eq_one hsnd hl hc hdead
      rw [h1]
      rfl
    · rw [if_neg hj]
      exact hat j hj

/-! ## pin_block preserves the invariant on non-Custom runs -/

theorem pin_block_Inv (st : SubscriptionsInner) (id : SubId) (hash : Hash) (now : Instant)
    (bp : Hash → Except String Unit) (hinv : Inv st)
    (hnc : ∀ msg, (st.pin_block id hash now bp).1 ≠ .error (.Custom msg)) :
    Inv (st.pin_block id hash now bp).2 := by
  unfold SubscriptionsInner.pin_block at hnc ⊢
  cases hl : lookupA st.subs id with
  | none =>
      simp only [hl] at hnc ⊢
      exact hinv
  | some sub =>
      simp only [hl] at hnc ⊢
      have hsubnd : (keysA sub.blocks).Nodup := hinv.1.2.2 (id, sub) (lookupA_mem hl)
      have hnod : (keysA ((sub.register_block hash now).2).blocks).Nodup :=
        register_block_nodup sub hash now hsubnd
      by_cases hreg : (sub.register_block hash now).1
      · rw [hreg] at hnc ⊢
        simp only [Bool.not_true, Bool.false_eq_true, if_false] at hnc ⊢
        have hfresh : lookupA sub.blocks hash = none := by
          have hf := register_block_fst sub hash now
          rw [hreg] at hf
          cases hlb : lookupA sub.blocks hash with
          | none => rfl
          | some bs => rw [hlb] at hf; simp at hf
        have hconthash : sub.contains_block hash = false := by
          unfold SubscriptionState.contains_block
          rw [hfresh]
        have hcont1 : ∀ j, ((sub.register_block hash now).2).contains_block j =
            if j = hash then true else sub.contains_block j := by
          intro j
          rw [register_block_contains sub hash now j]
          by_cases hj : j = hash
          · simp [hj, hreg]
          · simp [hj]
        have hcount1 : ∀ j,
            subCount { st with subs := insertA st.subs id (sub.register_block hash now).2 } j
              + (if sub.contains_block j then 1 else 0)
            = subCount st j
              + (if ((sub.register_block hash now).2).contains_block j then 1 else 0) := by
          intro j
          unfold subCount
          exact length_filter_insertA (fun p => p.2.contains_block j) _ hl hinv.1.2.1
        cases hg : lookupA st.global_blocks hash with
        | some c =>
            simp only [hg, Option.isNone_some, Bool.false_eq_true, if_false] at hnc ⊢
            unfold SubscriptionsInner.global_register_block at hnc ⊢
            simp only [hg] at hnc ⊢
            have hcert : c = subCount st hash ∧ subCount st hash ≠ 0 := by
              have hat := hinv.2 hash
              unfold InvAt at hat
              rw [hg] at hat
              have := encodeCount_some hat.symm
              constructor
              · omega
              · intro hzero
                rw [hzero] at hat
                unfold encodeCount at hat
                simp at hat
            constructor
            · refine ⟨?_, ?_, ?_⟩
              · exact (keysA_insertA_of_mem _ hg) ▸ hinv.1.1
              · exact nodup_keysA_insertA _ hinv.1.2.1
              · intro p hp
                rcases mem_insertA hp with hp2 | hp2
                · exact hinv.1.2.2 p hp2
                · rw [hp2]
                  exact hnod
            · intro j
              unfold InvAt
              rw [lookupA_insertA]
              have hc1 := hcount1 j
              rw [hcont1 j] at hc1
              obtain ⟨hce, hcz⟩ := hcert
              by_cases hj : j = hash
              · rw [if_pos hj] at hc1
                rw [if_pos hj]
                rw [hj] at hc1
                rw [hconthash] at hc1
                simp at hc1
                have hv : subCount { st with subs := insertA st.subs id (sub.register_block hash now).2 } hash = c + 1 := by
                  omega
                have hgoal : some (c + 1) = encodeCount (subCount { st with subs := insertA st.subs id (sub.register_block hash now).2 } hash) := by
                  rw [hv]
                  unfold encodeCount
                  simp
                exact hj ▸ hgoal
              · rw [if_neg hj] at hc1
                rw [if_neg hj]
                have hscj : subCount
                    { st with subs := insertA st.subs id (sub.register_block hash now).2 } j
                    = subCount st j := by omega
                have hgoal : lookupA st.global_blocks j = encodeCount (subCount { st with subs := insertA st.subs id (sub.register_block hash now).2 } j) := by
                  rw [hscj]
                  exact hinv.2 j
                exact hgoal
        | none =>
            simp only [hg, Option.isNone_none, if_pos] at hnc ⊢
            have hz : subCount st hash = 0 := by
              have hat := hinv.2 hash
              unfold InvAt at hat
              rw [hg] at hat
              exact encodeCount_none hat.symm
            have hdead := contains_false_of_subCount_zero hz
            have hpd : PDefect
                { st with subs := insertA st.subs id (sub.register_block hash now).2 }
                id hash := by
              refine ⟨⟨hinv.1.1, nodup_keysA_insertA _ hinv.1.2.1, ?_⟩, ?_, hg, ?_⟩
              · intro p hp
                rcases mem_insertA hp with hp2 | hp2
                · exact hinv.1.2.2 p hp2
                · rw [hp2]
                  exact hnod
              · intro j hj
                unfold InvAt
                have hc1 := hcount1 j
                rw [hcont1 j, if_neg hj] at hc1
                have hscj : subCount
                    { st with subs := insertA st.subs id (sub.register_block hash now).2 } j
                    = subCount st j := by omega
                rw [hscj]
                exact hinv.2 j
              · intro p hp hpne
                rcases mem_insertA hp with hp2 | hp2
                · exact hdead p hp2
                · exact absurd (congrArg Prod.fst hp2) hpne
            have hpd2 := ensure_block_space_PDefect _ id now id hash hpd
            cases hflag : ({ st with
                subs := insertA st.subs id
                  (sub.register_block hash now).2 } : SubscriptionsInner).ensure_block_space
                  id now |>.1 with
            | true =>
                rw [if_pos rfl]
                obtain ⟨hnone, _⟩ := ensure_block_space_true_lookup _ id now hflag
                exact Inv_of_PDefect_removed _ id hash hpd2 hnone
            | false =>
                rw [hflag] at hnc
                simp only [Bool.false_eq_true, if_false] at hnc ⊢
                have hlsurv : lookupA (({ st with
                    subs := insertA st.subs id
                      (sub.register_block hash now).2 } : SubscriptionsInner).ensure_block_space
                      id now).2.subs id = some (sub.register_block hash now).2 := by
                  rw [ensure_block_space_false_lookup _ id now hflag]
                  dsimp only
                  rw [lookupA_insertA]
                  simp
                have hgnone := hpd2.2.2.1
                unfold SubscriptionsInner.global_register_block at hnc ⊢
                simp only [hgnone] at hnc ⊢
                cases hbp : bp hash with
                | error msg =>
                    rw [hbp] at hnc
                    exact absurd rfl (hnc msg)
                | ok u =>
                    refine Inv_of_PDefect_registered _ _ id hash
                      (sub.register_block hash now).2 hpd2 hlsurv ?_ rfl rfl
                    rw [hcont1 hash]
                    simp
      · have hregf : (sub.register_block hash now).1 = false := by
          cases hx : (sub.register_block hash now).1
          · rfl
          · exact absurd hx hreg
        rw [hregf] at hnc ⊢
        simp only [Bool.not_false, if_pos] at hnc ⊢
        have hcont1 : ∀ j, ((sub.register_block hash now).2).contains_block j
            = sub.contains_block j := by
          intro j
          rw [register_block_contains sub hash now j, hregf]
          by_cases hj : j = hash
          · simp [hj]
          · simp [hj]
        exact Inv_update_sub_same_contains hl hcont1 hnod rfl rfl hinv

/-! ## Reachability -/

theorem Inv_new (a b c : Nat) : Inv (SubscriptionsInner.new a b c) := by
  constructor
  · refine ⟨List.nodup_nil, List.nodup_nil, ?_⟩
    intro p hp
    simp [SubscriptionsInner.new] at hp
  · intro h
    unfold InvAt subCount encodeCount
    simp [SubscriptionsInner.new, lookupA]

theorem get_operation_Inv (st : SubscriptionsInner) (id : SubId) (oid : String)
    (hinv : Inv st) : Inv (st.get_operation id oid).2 := by
  unfold SubscriptionsInner.get_operation
  split <;> exact hinv

theorem ReachableNC_Inv {st : SubscriptionsInner} (h : ReachableNC st) : Inv st := by
  induction h with
  | init a b c => exact Inv_new a b c
  | insert_subscription sub_id wr hr ih => exact insert_subscription_Inv _ sub_id wr ih
  | remove_subscription sub_id hr ih => exact remove_subscription_Inv _ sub_id ih
  | stop_all_subscriptions hr ih => exact stop_all_subscriptions_Inv _ ih
  | pin_block sub_id hash now bp hnc hr ih => exact pin_block_Inv _ sub_id hash now bp ih hnc
  | unpin_blocks sub_id hashes hr ih => exact unpin_blocks_Inv _ sub_id hashes ih
  | lock_block sub_id hash n bp hr ih => exact lock_block_Inv _ sub_id hash n bp ih
  | get_operation sub_id oid hr ih => exact get_operation_Inv _ sub_id oid ih

/-- C6: the block state machine matches the spec transition table:
`advance_register` maps Registered to FullyRegistered and Unpinned to
FullyUnpinned and fixes the other two; `advance_unpin` maps Registered to
Unpinned and FullyRegistered to FullyUnpinned and fixes the other two;
`was_unpinned` holds exactly for Unpinned and FullyUnpinned; both operations
are total functions, so neither can fail. -/
theorem C6_block_state_machine_table :
    BlockStateMachine.advance_register .Registered = .FullyRegistered ∧
    BlockStateMachine.advance_register .Unpinned = .FullyUnpinned ∧
    BlockStateMachine.advance_register .FullyRegistered = .FullyRegistered ∧
    BlockStateMachine.advance_register .FullyUnpinned = .FullyUnpinned ∧
    BlockStateMachine.advance_unpin .Registered = .Unpinned ∧
    BlockStateMachine.advance_unpin .FullyRegistered = .FullyUnpinned ∧
    BlockStateMachine.advance_unpin .Unpinned = .Unpinned ∧
    BlockStateMachine.advance_unpin .FullyUnpinned = .FullyUnpinned ∧
    (∀ s : BlockStateMachine,
      s.was_unpinned = true ↔ (s = .Unpinned ∨ s = .FullyUnpinned)) ∧
    (∀ s : BlockStateMachine,
      s.advance_register.advance_register = s.advance_register ∧
      s.advance_unpin.advance_unpin = s.advance_unpin) := by
  decide

/-- C7 (amended): `reserve_at_most` returns none exactly when `min a n` is
zero or does not fit in a `u32` (the `try_into` conversion fails); otherwise
it hands out exactly `min a n` permits, decreasing availability by that
amount, and returning them (drop) makes a subsequent `reserve_at_most 1`
succeed again. -/
theorem C7_reserve_at_most (a n : Nat) :
    (reserve_at_most a n = none ↔ (min a n = 0 ∨ 4294967296 ≤ min a n)) ∧
    (∀ k rest, reserve_at_most a n = some (k, rest) →
      k = min a n ∧ 1 ≤ k ∧ rest + k = a ∧
      reserve_at_most (rest + k) 1 = some (1, a - 1)) := by
  constructor
  · unfold reserve_at_most
    by_cases h0 : min a n = 0
    · simp [h0]
    · by_cases h1 : min a n < 4294967296
      · simp [h0, h1]
        omega
      · simp [h0, h1]
        omega
  · intro k rest hres
    unfold reserve_at_most at hres
    by_cases h0 : min a n = 0
    · simp [h0] at hres
    · by_cases h1 : min a n < 4294967296
      · simp [h0, h1] at hres
        have hk : k = min a n := hres.1.symm
        have hrest : rest = a - min a n := hres.2.symm
        have hka : k ≤ a := by
          rw [hk]
          exact Nat.min_le_left a n
        have hk1 : 1 ≤ k := by omega
        have hrk : rest + k = a := by omega
        refine ⟨hk, hk1, hrk, ?_⟩
        unfold reserve_at_most
        have hmin1 : min (rest + k) 1 = 1 := by
          rw [hrk]
          omega
        rw [hmin1]
        simp
        omega
      · simp [h0, h1] at hres

/-- C7 counterexample: with 2^32 permits available, a request for 2^32
permits is refused even though `min a n` is positive — the `u32` conversion
in `reserve_at_most` fails — so "none iff min(a, n) == 0" is false. -/
theorem C7_reserve_at_most_counterexample :
    reserve_at_most 4294967296 4294967296 = none ∧ min 4294967296 4294967296 ≠ 0 := by
  constructor
  · rfl
  · decide

theorem foldl_min_spec (l : List Nat) : ∀ a : Nat,
    (l.foldl min a ≤ a ∧ ∀ x ∈ l, l.foldl min a ≤ x) ∧
      (l.foldl min a = a ∨ l.foldl min a ∈ l) := by
  induction l with
  | nil =>
      intro a
      exact ⟨⟨Nat.le_refl a, by intro x hx; cases hx⟩, Or.inl rfl⟩
  | cons y rest ih =>
      intro a
      simp only [List.foldl_cons]
      obtain ⟨⟨hle, hall⟩, hmem⟩ := ih (min a y)
      refine ⟨⟨?_, ?_⟩, ?_⟩
      · exact le_trans hle (Nat.min_le_left a y)
      · intro x hx
        rcases List.mem_cons.mp hx with hx2 | hx2
        · rw [hx2]
          exact le_trans hle (Nat.min_le_right a y)
        · exact hall x hx2
      · rcases hmem with hm | hm
        · by_cases hay : a ≤ y
          · left
            rw [hm]
            omega
          · right
            rw [hm]
            have hya : a ⊓ y = y := by omega
            rw [hya]
            exact List.mem_cons_self _ _
        · right
          exact List.mem_cons_of_mem _ hm

/-- C9: under a monotonic clock (every stored insertion timestamp is at most
`now`, which `Instant::now()` guarantees), `find_oldest_block_timestamp`
returns the minimum of the insertion timestamps of the tracked blocks, and
returns the current instant when the subscription tracks none. -/
theorem C9_find_oldest_block_timestamp (s : SubscriptionState) (now : Instant)
    (hmono : ∀ p ∈ s.blocks, p.2.timestamp ≤ now) :
    (s.blocks = [] → s.find_oldest_block_timestamp now = now) ∧
    (s.blocks ≠ [] →
      (∃ p ∈ s.blocks, p.2.timestamp = s.find_oldest_block_timestamp now) ∧
      ∀ p ∈ s.blocks, s.find_oldest_block_timestamp now ≤ p.2.timestamp) := by
  have hfold : s.find_oldest_block_timestamp now
      = (s.blocks.map (fun p => p.2.timestamp)).foldl min now := by
    unfold SubscriptionState.find_oldest_block_timestamp
    rw [List.foldl_map]
  constructor
  · intro hnil
    rw [hfold, hnil]
    rfl
  · intro hne
    obtain ⟨⟨hlenow, hall⟩, hmem⟩ := foldl_min_spec (s.blocks.map (fun p => p.2.timestamp)) now
    constructor
    · rcases hmem with hm | hm
      · obtain ⟨p, hp⟩ := List.exists_mem_of_ne_nil s.blocks hne
        refine ⟨p, hp, ?_⟩
        have h1 : p.2.timestamp ≤ now := hmono p hp
        have h2 : (s.blocks.map (fun p => p.2.timestamp)).foldl min now ≤ p.2.timestamp :=
          hall _ (List.mem_map_of_mem (fun p => p.2.timestamp) hp)
        rw [hfold, hm]
        rw [hm] at h2
        exact le_antisymm h1 h2
      · rcases List.mem_map.mp hm with ⟨p, hp, hpt⟩
        exact ⟨p, hp, by rw [hfold, hpt]⟩
    · intro p hp
      rw [hfold]
      exact hall _ (List.mem_map_of_mem _ hp)

theorem C9_find_oldest_block_timestamp_witness :
    (({ with_runtime := true, tx_stop := true, operations := Operations.new 16,
        blocks := [(1, { state_machine := .Registered, timestamp := 4 }),
                   (2, { state_machine := .Registered, timestamp := 3 })] } :
        SubscriptionState).find_oldest_block_timestamp 9 = 3) ∧
    (({ with_runtime := true, tx_stop := true, operations := Operations.new 16,
        blocks := [] } : SubscriptionState).find_oldest_block_timestamp 9 = 9) := by
  constructor
  · have h := C9_find_oldest_block_timestamp
      { with_runtime := true, tx_stop := true, operations := Operations.new 16,
        blocks := [(1, { state_machine := .Registered, timestamp := 4 }),
                   (2, { state_machine := .Registered, timestamp := 3 })] } 9
      (by decide)
    obtain ⟨⟨p, hp, hpt⟩, hall⟩ := h.2 (by decide)
    have h3 :
        ({ with_runtime := true, tx_stop := true, operations := Operations.new 16,
           blocks := [(1, { state_machine := .Registered, timestamp := 4 }),
                      (2, { state_machine := .Registered, timestamp := 3 })] } :
          SubscriptionState).find_oldest_block_timestamp 9 ≤ 3 :=
      hall (2, { state_machine := .Registered, timestamp := 3 }) (by decide)
    simp at hp
    rcases hp with rfl | rfl
    · simp at hpt
      rw [← hpt] at h3
      exact absurd h3 (by decide)
    · simp at hpt
      exact hpt.symm
  · exact (C9_find_oldest_block_timestamp _ 9 (by decide)).1 rfl

/-- C2: re-announcement after unpin leaks nothing: when a subscription holds
`h` in state `Unpinned`, `pin_block` advances it to `FullyUnpinned`, removes
the entry, returns `Ok(false)`, and leaves the global map and the backend
log untouched (no capacity check, no backend pin). -/
theorem C2_pin_after_unpin (st : SubscriptionsInner) (id : SubId) (h : Hash)
    (now : Instant) (bp : Hash → Except String Unit) (sub : SubscriptionState)
    (bs : BlockState)
    (hl : lookupA st.subs id = some sub)
    (hb : lookupA sub.blocks h = some bs)
    (hu : bs.state_machine = .Unpinned) :
    st.pin_block id h now bp =
      (.ok false,
        { st with subs := insertA st.subs id { sub with blocks := eraseA sub.blocks h } }) ∧
    (st.pin_block id h now bp).2.global_blocks = st.global_blocks ∧
    (st.pin_block id h now bp).2.log = st.log := by
  have hreg : sub.register_block h now =
      (false, { sub with blocks := eraseA sub.blocks h }) := by
    unfold SubscriptionState.register_block
    rw [hb]
    simp [hu, BlockStateMachine.advance_register]
  have hmain : st.pin_block id h now bp =
      (.ok false,
        { st with subs := insertA st.subs id { sub with blocks := eraseA sub.blocks h } }) := by
    unfold SubscriptionsInner.pin_block
    rw [hl]
    simp only [hreg, Bool.not_false, if_true]
  refine ⟨hmain, ?_, ?_⟩ <;> rw [hmain]

theorem C2_pin_after_unpin_witness :
    lookupA stC2.subs "a" = some subC2 ∧
    lookupA subC2.blocks 7 = some { state_machine := .Unpinned, timestamp := 2 } ∧
    ({ state_machine := .Unpinned, timestamp := 2 } : BlockState).state_machine = .Unpinned ∧
    (stC2.pin_block "a" 7 3 (fun _ => Except.ok ()) =
      (.ok false,
        { stC2 with subs := insertA stC2.subs "a" { subC2 with blocks := eraseA subC2.blocks 7 } }) ∧
      (stC2.pin_block "a" 7 3 (fun _ => Except.ok ())).2.global_blocks = stC2.global_blocks ∧
      (stC2.pin_block "a" 7 3 (fun _ => Except.ok ())).2.log = stC2.log) :=
  ⟨rfl, rfl, rfl,
    C2_pin_after_unpin stC2 "a" 7 3 (fun _ => Except.ok ()) subC2
      { state_machine := .Unpinned, timestamp := 2 } rfl rfl rfl⟩

/-- C3: `unpin_blocks` validates before mutating: a duplicate in the hash
list yields `DuplicateHashes` with the state unchanged; otherwise a hash not
live in the subscription yields `BlockHashAbsent` with the state unchanged;
only when all hashes are live does it unregister each hash locally and then
globally, returning `Ok`. -/
theorem C3_unpin_blocks_validation (st : SubscriptionsInner) (id : SubId)
    (hs : List Hash) (sub : SubscriptionState)
    (hl : lookupA st.subs id = some sub) :
    (¬ hs.Nodup → st.unpin_blocks id hs = (.error .DuplicateHashes, st)) ∧
    (hs.Nodup → (∃ x ∈ hs, sub.contains_block x = false) →
      st.unpin_blocks id hs = (.error .BlockHashAbsent, st)) ∧
    (hs.Nodup → (∀ x ∈ hs, sub.contains_block x = true) →
      st.unpin_blocks id hs =
        (.ok (),
          hs.foldl SubscriptionsInner.global_unregister_block
            { st with subs := insertA st.subs id (hs.foldl (fun s x => (s.unregister_block x).2) sub) })) := by
  refine ⟨?_, ?_, ?_⟩
  · intro hdup
    unfold SubscriptionsInner.unpin_blocks
    rw [ehu_error_of_dup hs hdup]
  · intro hnd hex
    obtain ⟨x, hx, hxf⟩ := hex
    have hallf : hs.all (fun h => sub.contains_block h) = false := by
      rw [List.all_eq_false]
      exact ⟨x, hx, by simp [hxf]⟩
    unfold SubscriptionsInner.unpin_blocks
    rw [(ehu_ok_iff hs).mpr hnd, hl]
    simp only [hallf, Bool.false_eq_true, if_false]
  · intro hnd hall
    have hallt : hs.all (fun h => sub.contains_block h) = true := by
      rw [List.all_eq_true]
      intro x hx
      simp [hall x hx]
    unfold SubscriptionsInner.unpin_blocks
    rw [(ehu_ok_iff hs).mpr hnd, hl]
    simp only [hallt, if_true]

theorem C3_unpin_blocks_validation_witness :
    lookupA stC3.subs "a" = some subC3 ∧
    ((¬ ([7, 7] : List Hash).Nodup →
        stC3.unpin_blocks "a" [7, 7] = (.error .DuplicateHashes, stC3)) ∧
      (([7, 7] : List Hash).Nodup → (∃ x ∈ ([7, 7] : List Hash), subC3.contains_block x = false) →
        stC3.unpin_blocks "a" [7, 7] = (.error .BlockHashAbsent, stC3)) ∧
      (([7, 7] : List Hash).Nodup → (∀ x ∈ ([7, 7] : List Hash), subC3.contains_block x = true) →
        stC3.unpin_blocks "a" [7, 7] =
          (.ok (),
            ([7, 7] : List Hash).foldl SubscriptionsInner.global_unregister_block
              { stC3 with subs := insertA stC3.subs "a" (([7, 7] : List Hash).foldl (fun s x => (s.unregister_block x).2) subC3) }))) :=
  ⟨rfl, C3_unpin_blocks_validation stC3 "a" [7, 7] subC3 rfl⟩

/-- C8: double-unpin rejection: with `h` live in the subscription, the first
`unpin_blocks [h]` succeeds and a second one returns `BlockHashAbsent`
leaving the state produced by the first call completely unchanged. -/
theorem C8_double_unpin (st : SubscriptionsInner) (id : SubId) (h : Hash)
    (sub : SubscriptionState)
    (hl : lookupA st.subs id = some sub)
    (hlive : sub.contains_block h = true) :
    (st.unpin_blocks id [h]).1 = .ok () ∧
    ((st.unpin_blocks id [h]).2).unpin_blocks id [h] =
      (.error .BlockHashAbsent, (st.unpin_blocks id [h]).2) := by
  have huniq : ensure_hash_uniqueness [h] = .ok () := rfl
  have hallt : [h].all (fun x => sub.contains_block x) = true := by
    simp [hlive]
  have h1 : st.unpin_blocks id [h] =
      (.ok (), SubscriptionsInner.global_unregister_block
        { st with subs := insertA st.subs id (sub.unregister_block h).2 } h) := by
    unfold SubscriptionsInner.unpin_blocks
    rw [huniq, hl]
    simp only [hallt, if_true, List.foldl_cons, List.foldl_nil]
  have hsub1 : lookupA ((st.unpin_blocks id [h]).2).subs id =
      some (sub.unregister_block h).2 := by
    rw [h1]
    show lookupA (SubscriptionsInner.global_unregister_block
      { st with subs := insertA st.subs id (sub.unregister_block h).2 } h).subs id = _
    rw [gu_subs]
    show lookupA (insertA st.subs id (sub.unregister_block h).2) id = _
    rw [lookupA_insertA]
    simp
  have hdead : ((sub.unregister_block h).2).contains_block h = false := by
    rw [unregister_block_contains]
    simp
  have hallf : [h].all (fun x => ((sub.unregister_block h).2).contains_block x) = false := by
    simp [hdead]
  refine ⟨by rw [h1], ?_⟩
  set st2 := (st.unpin_blocks id [h]).2 with hst2
  unfold SubscriptionsInner.unpin_blocks
  rw [huniq, hsub1]
  simp only [hallf, Bool.false_eq_true, if_false]

theorem C8_double_unpin_witness :
    lookupA stC8.subs "a" = some subC8 ∧
    subC8.contains_block 7 = true ∧
    ((stC8.unpin_blocks "a" [7]).1 = .ok () ∧
      ((stC8.unpin_blocks "a" [7]).2).unpin_blocks "a" [7] =
        (.error .BlockHashAbsent, (stC8.unpin_blocks "a" [7]).2)) :=
  ⟨rfl, rfl, C8_double_unpin stC8 "a" 7 subC8 rfl rfl⟩

/-- Inverting a successful `register_operation`: the permits moved into the
operation came out of the semaphore, and the id was inserted into the shared
map. -/
theorem register_operation_inv {s : SubscriptionState} {n : Nat}
    {op : RegisteredOperation} {s1 : SubscriptionState}
    (h : s.register_operation n = some (op, s1)) :
    s1.operations.limits + op.num_permits = s.operations.limits ∧
    s1.operations.operations = s.operations.operations.insert op.operation_id := by
  unfold SubscriptionState.register_operation Operations.register_operation at h
  cases hres : reserve_at_most s.operations.limits n with
  | none => rw [hres] at h; cases h
  | some pr =>
      obtain ⟨permit, remaining⟩ := pr
      rw [hres] at h
      simp only [] at h
      have h2 := Option.some.inj h
      injection h2 with h3 h4
      subst h3
      subst h4
      refine ⟨?_, rfl⟩
      unfold reserve_at_most at hres
      by_cases h0 : min s.operations.limits n = 0
      · simp [h0] at hres
      · by_cases h1 : min s.operations.limits n < 4294967296
        · simp [h0, h1] at hres
          obtain ⟨hp, hrem⟩ := hres
          have hle := Nat.min_le_left s.operations.limits n
          simp only []
          omega
        · simp [h0, h1] at hres

/-- C1 (amended): in every run of the public registry calls in which no
`pin_block` call surfaced a backend pin failure (`Custom`), after every call
the refcount stored in `global_blocks` for each hash — absence read as 0 —
equals the number of subscriptions whose blocks map holds the hash in a
state that is not `Unpinned`/`FullyUnpinned`.  (The unrestricted original
claim is refuted by the counterexample: a backend pin failure leaves the
subscription holding the hash while the global entry is never created.) -/
theorem C1_global_refcount (st : SubscriptionsInner) (hr : ReachableNC st) :
    ∀ h : Hash, globalRefcount st h = subCount st h := by
  intro h
  have hi := (ReachableNC_Inv hr).2 h
  unfold InvAt at hi
  unfold globalRefcount
  rw [hi]
  unfold encodeCount
  by_cases hc : subCount st h = 0
  · simp [hc]
  · simp [hc]

theorem C1_global_refcount_witness :
    ReachableNC stC1 ∧ globalRefcount stC1 7 = subCount stC1 7 := by
  have hr : ReachableNC stC1 :=
    ReachableNC.pin_block "a" 7 0 (fun _ => Except.ok ())
      (fun msg hmsg => nomatch hmsg)
      (ReachableNC.insert_subscription "a" true (ReachableNC.init 10 5 16))
  exact ⟨hr, C1_global_refcount stC1 hr 7⟩

theorem C1_global_refcount_counterexample :
    ((((SubscriptionsInner.new 10 5 16).insert_subscription "a" true).2).pin_block "a" 7 0
        (fun _ => Except.error "boom")).1 = .error (.Custom "boom") ∧
    globalRefcount ((((SubscriptionsInner.new 10 5 16).insert_subscription "a" true).2).pin_block
        "a" 7 0 (fun _ => Except.error "boom")).2 7 = 0 ∧
    subCount ((((SubscriptionsInner.new 10 5 16).insert_subscription "a" true).2).pin_block
        "a" 7 0 (fun _ => Except.error "boom")).2 7 = 1 :=
  ⟨rfl, rfl, rfl⟩

/-- C4: under the registry invariant (every reachable state of a run without
surfaced backend pin failures), `ensure_block_space` either leaves the
global store strictly below the cap or empties both maps; it returns `true`
exactly when the requesting subscription itself was removed; and in that
case the enclosing `pin_block` returns `ExceededLimits`. -/
theorem C4_ensure_block_space (st : SubscriptionsInner) (id : SubId) (now : Instant)
    (hr : ReachableNC st) :
    ((st.ensure_block_space id now).2.global_blocks.length < st.global_max_pinned_blocks ∨
      ((st.ensure_block_space id now).2.subs = [] ∧
        (st.ensure_block_space id now).2.global_blocks = [])) ∧
    ((st.ensure_block_space id now).1 = true ↔
      ((lookupA st.subs id).isSome ∧
        lookupA (st.ensure_block_space id now).2.subs id = none)) ∧
    (∀ (hash : Hash) (bp : Hash → Except String Unit) (sub : SubscriptionState),
      lookupA st.subs id = some sub →
      (sub.register_block hash now).1 = true →
      lookupA st.global_blocks hash = none →
      (({ st with subs := insertA st.subs id (sub.register_block hash now).2 } :
          SubscriptionsInner).ensure_block_space id now).1 = true →
      st.pin_block id hash now bp =
        (.error .ExceededLimits,
          (({ st with subs := insertA st.subs id (sub.register_block hash now).2 } :
            SubscriptionsInner).ensure_block_space id now).2)) := by
  refine ⟨ensure_block_space_room st id now (ReachableNC_Inv hr),
    ensure_block_space_terminated_iff st id now, ?_⟩
  intro hash bp sub hlsub hregfst hglob hflag
  unfold SubscriptionsInner.pin_block
  rw [hlsub]
  simp only [hregfst, Bool.not_true, Bool.false_eq_true, if_false]
  simp only [hglob, Option.isNone_none, if_true]
  simp only [hflag, if_true]

theorem C4_ensure_block_space_witness :
    ReachableNC stC4 ∧
    (((stC4.ensure_block_space "a" 1).2.global_blocks.length < stC4.global_max_pinned_blocks ∨
        ((stC4.ensure_block_space "a" 1).2.subs = [] ∧
          (stC4.ensure_block_space "a" 1).2.global_blocks = [])) ∧
      ((stC4.ensure_block_space "a" 1).1 = true ↔
        ((lookupA stC4.subs "a").isSome ∧
          lookupA (stC4.ensure_block_space "a" 1).2.subs "a" = none)) ∧
      (∀ (hash : Hash) (bp : Hash → Except String Unit) (sub : SubscriptionState),
        lookupA stC4.subs "a" = some sub →
        (sub.register_block hash 1).1 = true →
        lookupA stC4.global_blocks hash = none →
        (({ stC4 with subs := insertA stC4.subs "a" (sub.register_block hash 1).2 } :
            SubscriptionsInner).ensure_block_space "a" 1).1 = true →
        stC4.pin_block "a" hash 1 bp =
          (.error .ExceededLimits,
            (({ stC4 with subs := insertA stC4.subs "a" (sub.register_block hash 1).2 } :
              SubscriptionsInner).ensure_block_space "a" 1).2))) := by
  have hr : ReachableNC stC4 :=
    ReachableNC.pin_block "a" 5 0 (fun _ => Except.ok ())
      (fun msg hmsg => nomatch hmsg)
      (ReachableNC.insert_subscription "a" true (ReachableNC.init 1 0 16))
  exact ⟨hr, C4_ensure_block_space stC4 "a" 1 hr⟩

/-- C5: a `BlockGuard` built by a successful `lock_block` (one backend pin
at construction) balances its resources on drop: the drop appends exactly
one backend unpin for its hash, erases its operation id from the shared
ledger, and returns its permits, restoring the semaphore to the level it
had before the operation was registered. -/
theorem C5_block_guard_balance (st : SubscriptionsInner) (id : SubId) (h : Hash)
    (n : Nat) (bp : Hash → Except String Unit) (sub sub1 : SubscriptionState)
    (op : RegisteredOperation)
    (hl : lookupA st.subs id = some sub)
    (hcb : sub.contains_block h = true)
    (hro : sub.register_operation n = some (op, sub1))
    (hbp : bp h = .ok ()) :
    st.lock_block id h n bp =
      (.ok { hash := h, with_runtime := sub.with_runtime, operation := op },
       { st with subs := insertA st.subs id sub1, log := st.log ++ [.pin h] }) ∧
    (drop_block_guard { hash := h, with_runtime := sub.with_runtime, operation := op }
        sub1.operations (st.log ++ [.pin h])).2 = st.log ++ [.pin h, .unpin h] ∧
    (drop_block_guard { hash := h, with_runtime := sub.with_runtime, operation := op }
        sub1.operations (st.log ++ [.pin h])).1.operations =
      sub1.operations.operations.erase op.operation_id ∧
    (drop_block_guard { hash := h, with_runtime := sub.with_runtime, operation := op }
        sub1.operations (st.log ++ [.pin h])).1.limits = sub.operations.limits := by
  refine ⟨?_, by simp [drop_block_guard], rfl, ?_⟩
  · unfold SubscriptionsInner.lock_block
    rw [hl]
    simp only [hcb, Bool.not_true, Bool.false_eq_true, if_false, hro, hbp]
  · show (drop_registered_operation op sub1.operations).limits = sub.operations.limits
    unfold drop_registered_operation
    exact (register_operation_inv hro).1

theorem C5_block_guard_balance_witness :
    lookupA stC5.subs "a" = some subC5 ∧
    subC5.contains_block 7 = true ∧
    subC5.register_operation 1 = some (opC5, subC5b) ∧
    ((fun _ => Except.ok ()) : Hash → Except String Unit) 7 = .ok () ∧
    (stC5.lock_block "a" 7 1 (fun _ => Except.ok ()) =
      (.ok { hash := 7, with_runtime := subC5.with_runtime, operation := opC5 },
       { stC5 with subs := insertA stC5.subs "a" subC5b, log := stC5.log ++ [.pin 7] }) ∧
     (drop_block_guard { hash := 7, with_runtime := subC5.with_runtime, operation := opC5 }
        subC5b.operations (stC5.log ++ [.pin 7])).2 = stC5.log ++ [.pin 7, .unpin 7] ∧
     (drop_block_guard { hash := 7, with_runtime := subC5.with_runtime, operation := opC5 }
        subC5b.operations (stC5.log ++ [.pin 7])).1.operations =
       subC5b.operations.operations.erase opC5.operation_id ∧
     (drop_block_guard { hash := 7, with_runtime := subC5.with_runtime, operation := opC5 }
        subC5b.operations (stC5.log ++ [.pin 7])).1.limits = subC5.operations.limits) :=
  ⟨rfl, rfl, rfl, rfl,
    C5_block_guard_balance stC5 "a" 7 1 (fun _ => Except.ok ()) subC5 subC5b opC5
      rfl rfl rfl rfl⟩

/-- C10: `pin_block` does not roll back the per-subscription registration
when the backend pin fails: with `h` fresh for the subscription and globally
absent (and room below the cap), a failing backend makes `pin_block` return
`Custom` while the hash stays out of `global_blocks`, yet the subscription
now holds `h` as `Registered`; a repeat `pin_block` then returns `Ok(false)`
touching neither `global_blocks` nor the backend, and `lock_block` hands out
a guard for a hash the registry never globally pinned. -/
theorem C10_pin_block_no_rollback (st : SubscriptionsInner) (id : SubId) (h : Hash)
    (now : Instant) (err : String) (sub : SubscriptionState) (n : Nat)
    (op : RegisteredOperation) (sub2 : SubscriptionState)
    (bp2 : Hash → Except String Unit)
    (hl : lookupA st.subs id = some sub)
    (hfresh : lookupA sub.blocks h = none)
    (hglob : lookupA st.global_blocks h = none)
    (hcap : st.global_blocks.length < st.global_max_pinned_blocks)
    (hro : ((sub.register_block h now).2).register_operation n = some (op, sub2))
    (hbp2 : bp2 h = .ok ()) :
    st.pin_block id h now (fun _ => Except.error err) =
      (.error (.Custom err),
        { st with subs := insertA st.subs id (sub.register_block h now).2,
                  log := st.log ++ [.pin h] }) ∧
    lookupA (st.pin_block id h now (fun _ => Except.error err)).2.global_blocks h = none ∧
    lookupA ((sub.register_block h now).2).blocks h =
      some { state_machine := .Registered, timestamp := now } ∧
    ((st.pin_block id h now (fun _ => Except.error err)).2.pin_block id h now bp2) =
      (.ok false,
        { (st.pin_block id h now (fun _ => Except.error err)).2 with
            subs := insertA (st.pin_block id h now (fun _ => Except.error err)).2.subs id
              ((((sub.register_block h now).2).register_block h now).2) }) ∧
    ((st.pin_block id h now (fun _ => Except.error err)).2.pin_block id h now bp2).2.log =
      st.log ++ [.pin h] ∧
    ((st.pin_block id h now (fun _ => Except.error err)).2.lock_block id h n bp2).1 =
      .ok { hash := h, with_runtime := (sub.register_block h now).2.with_runtime,
            operation := op } := by
  have hreg : sub.register_block h now =
      (true, { sub with blocks := insertA sub.blocks h { state_machine := BlockStateMachine.new, timestamp := now } }) := by
    unfold SubscriptionState.register_block
    rw [hfresh]
  have hlook2 : lookupA ((sub.register_block h now).2).blocks h =
      some { state_machine := .Registered, timestamp := now } := by
    rw [hreg]
    show lookupA (insertA sub.blocks h { state_machine := BlockStateMachine.new, timestamp := now }) h = _
    rw [lookupA_insertA]
    simp [BlockStateMachine.new]
  have hcb2 : ((sub.register_block h now).2).contains_block h = true := by
    unfold SubscriptionState.contains_block
    rw [hlook2]
    rfl
  have hfst2 : (((sub.register_block h now).2).register_block h now).1 = false := by
    rw [register_block_fst, hlook2]
    rfl
  have heq1 : st.pin_block id h now (fun _ => Except.error err) =
      (.error (.Custom err),
        { st with subs := insertA st.subs id (sub.register_block h now).2,
                  log := st.log ++ [.pin h] }) := by
    unfold SubscriptionsInner.pin_block
    rw [hl]
    simp only [hreg, Bool.not_true, Bool.false_eq_true, if_false]
    simp only [hglob, Option.isNone_none, if_true]
    unfold SubscriptionsInner.ensure_block_space
    simp only []
    rw [if_pos hcap]
    simp only [Bool.false_eq_true, if_false]
    unfold SubscriptionsInner.global_register_block
    simp only [hglob]
  refine ⟨heq1, ?_, hlook2, ?_, ?_, ?_⟩
  · rw [heq1]
    exact hglob
  · rw [heq1]
    show SubscriptionsInner.pin_block _ id h now bp2 = _
    unfold SubscriptionsInner.pin_block
    rw [show lookupA (insertA st.subs id (sub.register_block h now).2) id =
        some (sub.register_block h now).2 by rw [lookupA_insertA]; simp]
    simp only [hfst2, Bool.not_false, if_true]
  · rw [heq1]
    show (SubscriptionsInner.pin_block _ id h now bp2).2.log = _
    unfold SubscriptionsInner.pin_block
    rw [show lookupA (insertA st.subs id (sub.register_block h now).2) id =
        some (sub.register_block h now).2 by rw [lookupA_insertA]; simp]
    simp only [hfst2, Bool.not_false, if_true]
  · rw [heq1]
    show (SubscriptionsInner.lock_block _ id h n bp2).1 = _
    unfold SubscriptionsInner.lock_block
    rw [show lookupA (insertA st.subs id (sub.register_block h now).2) id =
        some (sub.register_block h now).2 by rw [lookupA_insertA]; simp]
    simp only [hcb2, Bool.not_true, Bool.false_eq_true, if_false, hro, hbp2]

theorem C10_pin_block_no_rollback_witness :
    lookupA stC10.subs "a" = some subC10 ∧
    lookupA subC10.blocks 7 = none ∧
    lookupA stC10.global_blocks 7 = none ∧
    stC10.global_blocks.length < stC10.global_max_pinned_blocks ∧
    ((subC10.register_block 7 0).2).register_operation 1 = some (opC10, subC10b) ∧
    ((fun _ => Except.ok ()) : Hash → Except String Unit) 7 = .ok () ∧
    (stC10.pin_block "a" 7 0 (fun _ => Except.error "boom") =
      (.error (.Custom "boom"),
        { stC10 with subs := insertA stC10.subs "a" (subC10.register_block 7 0).2,
                     log := stC10.log ++ [.pin 7] }) ∧
     lookupA (stC10.pin_block "a" 7 0 (fun _ => Except.error "boom")).2.global_blocks 7 = none ∧
     lookupA ((subC10.register_block 7 0).2).blocks 7 =
       some { state_machine := .Registered, timestamp := 0 } ∧
     ((stC10.pin_block "a" 7 0 (fun _ => Except.error "boom")).2.pin_block "a" 7 0
         (fun _ => Except.ok ())) =
       (.ok false,
         { (stC10.pin_block "a" 7 0 (fun _ => Except.error "boom")).2 with
             subs := insertA (stC10.pin_block "a" 7 0
               (fun _ => Except.error "boom")).2.subs "a"
               ((((subC10.register_block 7 0).2).register_block 7 0).2) }) ∧
     ((stC10.pin_block "a" 7 0 (fun _ => Except.error "boom")).2.pin_block "a" 7 0
         (fun _ => Except.ok ())).2.log = stC10.log ++ [.pin 7] ∧
     ((stC10.pin_block "a" 7 0 (fun _ => Except.error "boom")).2.lock_block "a" 7 1
         (fun _ => Except.ok ())).1 =
       .ok { hash := 7, with_runtime := (subC10.register_block 7 0).2.with_runtime,
             operation := opC10 }) :=
  ⟨rfl, rfl, rfl, by decide, rfl, rfl,
    C10_pin_block_no_rollback stC10 "a" 7 0 "boom" subC10 1 opC10 subC10b
      (fun _ => Except.ok ()) rfl rfl rfl (by decide) rfl rfl⟩

end ChainHead
